import Mathlib

/-!
# The JSON document store of `server.js`

A shallow embedding of the six Express route handlers of `src/server.js`, of `readDB`, and
of the JavaScript operations they rely on (property lookup on a parsed document, object
spread, `parseInt`, `==` against a string, `===` against a number, `Math.max(...) + 1`).

Conventions of the embedding.

* A document is what `JSON.parse` returns for an object text: a list of own properties in
  property order, with distinct keys. Request bodies are JSON objects as well. The values
  inside are arbitrary JSON values.
* A finite JavaScript number is a double, that is an integer multiple of a power of two;
  `JSON.num m e` stands for `m / 2 ^ e`, and integers are `JSON.num n 0`.
  Negative zero is identified with zero (no handler can tell them apart and
  `JSON.stringify` writes both as `0`).
* Strings are sequences of Unicode scalar values.
* `Number::toString` is needed only for the numbers inside an array that stands where a
  primitive is expected (an id that is an array); it is a parameter (`nts`) of the two
  handlers that can reach it.
* An uncaught `TypeError` makes the handler answer through the default error handler
  of Express; nothing is saved then.
* A handler is a function of the document returned by `readDB`; its outcome records the
  response and the argument of `saveDB`. Limits of the platform (stack depth of a spread
  call, memory, failures of the file system) are left out.
-/

namespace Actividad4

/-! ## JSON values -/

/-- Values produced by `JSON.parse`. -/
inductive JSON where
  | null
  | bool (b : Bool)
  | num (m : Int) (e : Nat)
  | str (s : String)
  | arr (items : List JSON)
  | obj (fields : List (String × JSON))

/-- Own properties of an object, in property order. -/
abbrev Fields := List (String × JSON)

/-- The integer `n` as a JSON number. -/
@[match_pattern, reducible] def JSON.int (n : Int) : JSON := JSON.num n 0

/-! ## Own properties -/

/-- Value of the own property `k`, if there is one. -/
def getOwn (k : String) : Fields → Option JSON
  | [] => none
  | (k1, v1) :: rest => if k1 = k then some v1 else getOwn k rest

/-- Whether `k` is an own property. -/
def hasKey (k : String) (fs : Fields) : Bool := (getOwn k fs).isSome

/-- Value of a run of decimal digits. -/
def natOfDigits (cs : List Char) : Nat :=
  cs.foldl (fun a c => 10 * a + (c.toNat - 48)) 0

/-- Array index of a property key: the key is the canonical decimal text of an
integer below `2 ^ 32 - 1`. -/
def arrayIndex? (k : String) : Option Nat :=
  let cs := k.toList
  if cs ≠ [] ∧ cs.all Char.isDigit ∧ (cs.head? ≠ some '0' ∨ cs.length = 1) then
    if natOfDigits cs < 4294967295 then some (natOfDigits cs) else none
  else none

/-- Overwrite the value of the first property named `k`, keeping its position. -/
def replaceProp (k : String) (v : JSON) : Fields → Fields
  | [] => []
  | (k1, v1) :: rest =>
    if k1 = k then (k, v) :: rest else (k1, v1) :: replaceProp k v rest

/-- Place a new array-index key `k` (index `n`) among the leading index keys. -/
def insertIndexed (n : Nat) (k : String) (v : JSON) : Fields → Fields
  | [] => [(k, v)]
  | (k1, v1) :: rest =>
    match arrayIndex? k1 with
    | some n1 =>
      if n1 < n then (k1, v1) :: insertIndexed n k v rest else (k, v) :: (k1, v1) :: rest
    | none => (k, v) :: (k1, v1) :: rest

/-- Add a property that is not yet present: array indices go first in ascending order,
every other key goes last. -/
def insertProp (k : String) (v : JSON) (fs : Fields) : Fields :=
  match arrayIndex? k with
  | some n => insertIndexed n k v fs
  | none => fs ++ [(k, v)]

/-- Define the data property `k` (what an object spread does for each copied property). -/
def setProp (k : String) (v : JSON) (fs : Fields) : Fields :=
  if hasKey k fs then replaceProp k v fs else insertProp k v fs

/-- The object `{ ...target, ...src }`, where `target` already is the copy of the first
operand: the properties of `src` are defined on it one after the other. -/
def spreadInto (target src : Fields) : Fields :=
  src.foldl (fun acc p => setProp p.1 p.2 acc) target

/-- Elements of an array as properties `"0"`, `"1"`, ... starting at index `i`. -/
def indexedFrom (i : Nat) : List JSON → Fields
  | [] => []
  | x :: rest => (toString i, x) :: indexedFrom (i + 1) rest

/-! ## Property lookup on the parsed document -/

/-- What `db[resource]` can evaluate to when `db` is a plain object. -/
inductive Value where
  | undefined
  | function
  | objectPrototype
  | json (v : JSON)

/-- Methods that every plain object inherits from `Object.prototype`. -/
def objectPrototypeMethods : List String :=
  ["constructor", "__defineGetter__", "__defineSetter__", "hasOwnProperty",
   "__lookupGetter__", "__lookupSetter__", "isPrototypeOf", "propertyIsEnumerable",
   "toString", "valueOf", "toLocaleString"]

/-- The expression `db[k]`: an own property, else what `Object.prototype` provides. -/
def getProp (db : Fields) (k : String) : Value :=
  match getOwn k db with
  | some v => .json v
  | none =>
    if k = "__proto__" then .objectPrototype
    else if k ∈ objectPrototypeMethods then .function
    else .undefined

/-- The assignment `db[k] = v` on a plain object. An own property is overwritten in place;
the inherited accessor `__proto__` changes the prototype and adds no own property; any other
key becomes a new own property. -/
def assignProp (db : Fields) (k : String) (v : JSON) : Fields :=
  if hasKey k db then replaceProp k v db
  else if k = "__proto__" then db
  else insertProp k v db

/-- Own enumerable properties copied by `{ ...v }`: the properties of an object, the
elements of an array under their indices, the characters of a string under their indices
(characters of the Basic Multilingual Plane, one code unit each), and nothing otherwise. -/
def ownEntries : Value → Fields
  | .json (.obj fs) => fs
  | .json (.arr xs) => indexedFrom 0 xs
  | .json (.str s) => indexedFrom 0 (s.toList.map (fun c => JSON.str (String.singleton c)))
  | _ => []

/-- Result of `JSON.stringify` as used by `res.json`: `none` when there is no JSON text. -/
def Value.stringify : Value → Option JSON
  | .undefined => none
  | .function => none
  | .objectPrototype => some (.obj [])
  | .json v => some v

/-! ## Numbers -/

/-- A JavaScript Number: `fin m e` is the finite value `m / 2 ^ e`. -/
inductive JSNum where
  | nan
  | inf (neg : Bool)
  | fin (m : Int) (e : Nat)

/-- Number equality (`===` on two Numbers): `NaN` equals nothing. -/
def JSNum.eq : JSNum → JSNum → Bool
  | .fin m1 e1, .fin m2 e2 => decide (m1 * 2 ^ e2 = m2 * 2 ^ e1)
  | .inf a, .inf b => a == b
  | _, _ => false

/-- Strict order on Numbers other than `NaN`. -/
def JSNum.lt : JSNum → JSNum → Bool
  | .fin m1 e1, .fin m2 e2 => decide (m1 * 2 ^ e2 < m2 * 2 ^ e1)
  | .inf a, .inf b => a && !b
  | .inf a, .fin _ _ => a
  | .fin _ _, .inf b => !b
  | _, _ => false

/-- Number of binary digits of `n` (`fuel` bounds the recursion; `n` itself is enough). -/
def bitLen : Nat → Nat → Nat
  | 0, _ => 0
  | fuel + 1, n => if n = 0 then 0 else 1 + bitLen fuel (n / 2)

/-- Quotient `p / q` rounded to the nearest integer, ties to even. -/
def divHalfEven (p q : Nat) : Nat :=
  let d := p / q
  let r := p % q
  if 2 * r < q then d
  else if q < 2 * r then d + 1
  else if d % 2 = 0 then d else d + 1

/-- Reduce `m / 2 ^ e` to lowest terms. -/
def JSNum.reduce (m : Int) : Nat → JSNum
  | 0 => .fin m 0
  | e + 1 => if m % 2 = 0 then JSNum.reduce (m / 2) e else .fin m (e + 1)

/-- The double nearest to `± p / q` (round to nearest, ties to even; 53 significant bits,
least exponent `-1074`, overflow to infinity when the rounded value reaches `2 ^ 1024`, that
is when it has more than 1024 binary digits). Requires `0 < q`. -/
def roundDouble (neg : Bool) (p q : Nat) : JSNum :=
  if p = 0 then .fin 0 0
  else
    let e0 : Int := (bitLen p p : Int) - (bitLen q q : Int)
    -- binary exponent of `p / q`: `2 ^ ex ≤ p / q < 2 ^ (ex + 1)`
    let ex : Int :=
      if (if 0 ≤ e0 then q * 2 ^ e0.toNat ≤ p else q ≤ p * 2 ^ (-e0).toNat) then e0 else e0 - 1
    -- exponent of the unit in the last place
    let s : Int := max ex (-1022) - 52
    let sign : Int := if neg then -1 else 1
    if 0 ≤ s then
      let mant := divHalfEven p (q * 2 ^ s.toNat)
      if 1025 ≤ bitLen mant mant + s.toNat then .inf neg
      else .fin (sign * (mant * 2 ^ s.toNat : Nat)) 0
    else
      let mant := divHalfEven (p * 2 ^ (-s).toNat) q
      JSNum.reduce (sign * (mant : Nat)) (-s).toNat

/-- The sum `x + 1`. Integers up to `2 ^ 53` in magnitude are doubles, so the sum is exact
while it stays in that range. -/
def JSNum.addOne : JSNum → JSNum
  | .nan => .nan
  | .inf b => .inf b
  | .fin m e =>
    if e = 0 ∧ -9007199254740992 ≤ m + 1 ∧ m + 1 ≤ 9007199254740992 then .fin (m + 1) 0
    else
      let t := m + 2 ^ e
      roundDouble (decide (t < 0)) t.natAbs (2 ^ e)

/-- The larger of two Numbers; `NaN` if either is `NaN`. -/
def JSNum.max2 : JSNum → JSNum → JSNum
  | .nan, _ => .nan
  | _, .nan => .nan
  | a, b => if JSNum.lt a b then b else a

/-- The call `Math.max(...xs)` on Numbers: `-Infinity` for no argument. -/
def mathMax : List JSNum → JSNum
  | [] => .inf true
  | x :: rest => JSNum.max2 x (mathMax rest)

/-- How `JSON.stringify` writes a Number: `NaN` and the infinities become `null`. -/
def JSNum.toJSON : JSNum → JSON
  | .fin m e => .num m e
  | _ => .null

/-! ## Strings to numbers -/

/-- White space and line terminators of ECMAScript. -/
def isJSWhiteSpace (c : Char) : Bool :=
  let n := c.toNat
  n = 0x09 ∨ n = 0x0A ∨ n = 0x0B ∨ n = 0x0C ∨ n = 0x0D ∨ n = 0x20 ∨ n = 0xA0 ∨
  n = 0x1680 ∨ (0x2000 ≤ n ∧ n ≤ 0x200A) ∨ n = 0x2028 ∨ n = 0x2029 ∨ n = 0x202F ∨
  n = 0x205F ∨ n = 0x3000 ∨ n = 0xFEFF

/-- Value of `c` as a digit in the given radix. -/
def digitValue (radix : Nat) (c : Char) : Option Nat :=
  let n := c.toNat
  let v : Option Nat :=
    if 48 ≤ n ∧ n ≤ 57 then some (n - 48)
    else if 97 ≤ n ∧ n ≤ 122 then some (n - 87)
    else if 65 ≤ n ∧ n ≤ 90 then some (n - 55)
    else none
  match v with
  | some d => if d < radix then some d else none
  | none => none

/-- Value of a run of digits in the given radix (characters that are no digit count 0). -/
def natOfRadixDigits (radix : Nat) (cs : List Char) : Nat :=
  cs.foldl (fun a c => radix * a + (digitValue radix c).getD 0) 0

/-- Split an optional leading sign off: `true` for `-`. -/
def splitSign : List Char → Bool × List Char
  | '-' :: rest => (true, rest)
  | '+' :: rest => (false, rest)
  | cs => (false, cs)

/-- Radix and remaining text after the optional prefix `0x` or `0X` of `parseInt`. -/
def radixPrefix (r : List Char) : Nat × List Char :=
  match r with
  | '0' :: x :: t => if x = 'x' ∨ x = 'X' then (16, t) else (10, r)
  | _ => (10, r)

/-- The call `parseInt(s)` without radix: leading white space is skipped, then an optional
sign, an optional `0x` or `0X` prefix, and the longest run of digits; `NaN` when that run is
empty. -/
def parseInt (s : String) : JSNum :=
  let signed := splitSign (s.toList.dropWhile isJSWhiteSpace)
  let rd := radixPrefix signed.2
  let ds := rd.2.takeWhile (fun c => (digitValue rd.1 c).isSome)
  if ds = [] then .nan else roundDouble signed.1 (natOfRadixDigits rd.1 ds) 1

/-- A literal `0x..`, `0o..` or `0b..` after its prefix: every character must be a digit. -/
def radixLiteral (radix : Nat) (ds : List Char) : JSNum :=
  if ds ≠ [] ∧ ds.all (fun c => (digitValue radix c).isSome) then
    roundDouble false (natOfRadixDigits radix ds) 1
  else .nan

/-- Digits after the decimal point, and the text that follows them. -/
def fractionPart (r : List Char) : List Char × List Char :=
  match r with
  | '.' :: t => (t.takeWhile Char.isDigit, t.dropWhile Char.isDigit)
  | _ => ([], r)

/-- The fraction `p / q` denoted by the mantissa `mant` with `scale` digits after the point,
followed by the exponent part `r` (empty, or `e` or `E`, an optional sign and digits). -/
def withExponent (mant scale : Nat) (r : List Char) : Option (Nat × Nat) :=
  match r with
  | [] => some (mant, 10 ^ scale)
  | c :: t =>
    if c = 'e' ∨ c = 'E' then
      let ex := splitSign t
      if ex.2 ≠ [] ∧ ex.2.all Char.isDigit then
        if ex.1 then some (mant, 10 ^ (scale + natOfDigits ex.2))
        else some (mant * 10 ^ natOfDigits ex.2, 10 ^ scale)
      else none
    else none

/-- An unsigned decimal literal `digits [. digits] [e [sign] digits]` (one of the two digit
runs around the point may be empty) as a fraction `p / q`. -/
def unsignedDecimal (cs : List Char) : Option (Nat × Nat) :=
  let ip := cs.takeWhile Char.isDigit
  let fr := fractionPart (cs.dropWhile Char.isDigit)
  if ip = [] ∧ fr.1 = [] then none
  else withExponent (natOfDigits (ip ++ fr.1)) fr.1.length fr.2

/-- A signed decimal literal or `Infinity`. -/
def decimalLiteral (cs : List Char) : JSNum :=
  let signed := splitSign cs
  if signed.2 = "Infinity".toList then .inf signed.1
  else
    match unsignedDecimal signed.2 with
    | some (p, q) => roundDouble signed.1 p q
    | none => .nan

/-- The numeric literal denoted by a trimmed text; the empty text is `0`. -/
def numericLiteral (cs : List Char) : JSNum :=
  match cs with
  | [] => .fin 0 0
  | '0' :: x :: rest =>
    if x = 'x' ∨ x = 'X' then radixLiteral 16 rest
    else if x = 'o' ∨ x = 'O' then radixLiteral 8 rest
    else if x = 'b' ∨ x = 'B' then radixLiteral 2 rest
    else decimalLiteral cs
  | _ => decimalLiteral cs

/-- The conversion of a string to a Number (`ToNumber` on a string): white space is trimmed
on both sides, and the whole rest must be one numeric literal. -/
def stringToNumber (s : String) : JSNum :=
  numericLiteral
    ((s.toList.dropWhile isJSWhiteSpace).reverse.dropWhile isJSWhiteSpace).reverse

/-! ## Coercions of stored values -/

/-- Abrupt completion of a handler. -/
inductive JSError where
  | typeError

/-- The text `ToString(v)` of a JSON value (`nts` is `Number::toString`). An array is the
comma-joined text of its elements, `null` elements giving the empty text; an object is
`[object Object]`, unless an own property `toString` hides the inherited method, in which
case no method yields a primitive and a `TypeError` is raised. -/
def JSON.toText (nts : Int → Nat → String) : JSON → Except JSError String
  | .null => .ok "null"
  | .bool b => .ok (if b then "true" else "false")
  | .num m e => .ok (nts m e)
  | .str s => .ok s
  | .arr xs => joinText xs
  | .obj fs => if hasKey "toString" fs then .error .typeError else .ok "[object Object]"
where
  /-- The call `xs.join(",")`. -/
  joinText : List JSON → Except JSError String
    | [] => .ok ""
    | [x] => element x
    | x :: y :: rest => do
      let a ← element x
      let b ← joinText (y :: rest)
      pure (a ++ "," ++ b)
  /-- One element of a joined array. -/
  element : JSON → Except JSError String
    | .null => .ok ""
    | .bool b => .ok (if b then "true" else "false")
    | .num m e => .ok (nts m e)
    | .str s => .ok s
    | .arr xs => joinText xs
    | .obj fs => if hasKey "toString" fs then .error .typeError else .ok "[object Object]"

/-- The expression `item.id`: reading a property of `null` raises a `TypeError`; only an
object can have an own property `id`; anything else gives `undefined` (`none`). -/
def getId : JSON → Except JSError (Option JSON)
  | .null => .error .typeError
  | .obj fs => .ok (getOwn "id" fs)
  | _ => .ok none

/-- The conversion `ToNumber(v)` of a property value (`none` is `undefined`). -/
def toNumber (nts : Int → Nat → String) : Option JSON → Except JSError JSNum
  | none => .ok .nan
  | some .null => .ok (.fin 0 0)
  | some (.bool b) => .ok (.fin (if b then 1 else 0) 0)
  | some (.num m e) => .ok (.fin m e)
  | some (.str s) => .ok (stringToNumber s)
  | some v => do
    let t ← v.toText nts
    pure (stringToNumber t)

/-- The comparison `v == s` of a property value with a string. -/
def looseEqString (nts : Int → Nat → String) (v : Option JSON) (s : String) :
    Except JSError Bool :=
  match v with
  | none => .ok false
  | some .null => .ok false
  | some (.bool b) => .ok (JSNum.eq (.fin (if b then 1 else 0) 0) (stringToNumber s))
  | some (.num m e) => .ok (JSNum.eq (.fin m e) (stringToNumber s))
  | some (.str t) => .ok (decide (t = s))
  | some w => do
    let t ← w.toText nts
    pure (decide (t = s))

/-- The comparison `v === n` of a property value with a Number. -/
def strictEqNumber (v : Option JSON) (n : JSNum) : Bool :=
  match v with
  | some (.num m e) => JSNum.eq (.fin m e) n
  | _ => false

/-! ## The route handlers -/

/-- What a handler sends. -/
inductive Response where
  /-- The call `res.status(status).json(v)`; the body is `none` when `v` has no JSON text. -/
  | json (status : Nat) (body : Option JSON)
  /-- The handler raised a `TypeError` and sent nothing itself. -/
  | uncaught

/-- Effect of one request: the response, and the argument of `saveDB` if it was called. -/
structure Outcome where
  response : Response
  saved : Option Fields

/-- The document found by the next `readDB`. -/
def Outcome.persisted (o : Outcome) (before : Fields) : Fields :=
  o.saved.getD before

/-- The call `res.status(404).json({ error: msg })`. -/
def notFound (msg : String) : Outcome :=
  ⟨.json 404 (some (.obj [("error", .str msg)])), none⟩

/-- A handler that raised before saving. -/
def raised : Outcome := ⟨.uncaught, none⟩

/-- Handler of `GET /api/:resource`. -/
def getResource (db : Fields) (resource : String) : Outcome :=
  match getProp db resource with
  | .undefined => notFound "Recurso no encontrado"
  | v => ⟨.json 200 v.stringify, none⟩

/-- The call `items.find(item => item.id == id)`. -/
def findLoose (nts : Int → Nat → String) (id : String) :
    List JSON → Except JSError (Option JSON)
  | [] => .ok none
  | item :: rest => do
    let v ← getId item
    let hit ← looseEqString nts v id
    if hit then pure (some item) else findLoose nts id rest

/-- Handler of `GET /api/:resource/:id`. Whatever `find` returns has an own `id`, so it is
an object and passes the test `if (item)`. -/
def getItem (nts : Int → Nat → String) (db : Fields) (resource id : String) : Outcome :=
  match getProp db resource with
  | .undefined => notFound "Recurso no encontrado"
  | .json (.arr items) =>
    match findLoose nts id items with
    | .error _ => raised
    | .ok (some item) => ⟨.json 200 (some item), none⟩
    | .ok none => notFound "Item no encontrado"
  | v => ⟨.json 200 v.stringify, none⟩

/-- The expression `items.length > 0 ? Math.max(...items.map(i => i.id)) + 1 : 1`. -/
def nextId (nts : Int → Nat → String) (items : List JSON) : Except JSError JSNum :=
  if items.length > 0 then do
    let ids ← items.mapM getId
    let ns ← ids.mapM (toNumber nts)
    pure (mathMax ns).addOne
  else pure (.fin 1 0)

/-- Handler of `POST /api/:resource`. -/
def postResource (nts : Int → Nat → String) (db : Fields) (resource : String)
    (newItem : Fields) : Outcome :=
  match getProp db resource with
  | .undefined => notFound "Recurso no encontrado"
  | .json (.arr items) =>
    match nextId nts items with
    | .error _ => raised
    | .ok n =>
      let created := assignProp newItem "id" n.toJSON
      let db1 := assignProp db resource (.arr (items ++ [.obj created]))
      ⟨.json 200 (some (.obj created)), some db1⟩
  | .function => ⟨.json 200 (some (.obj newItem)), some db⟩
  | .json (.bool _) => ⟨.json 200 (some (.obj newItem)), some db⟩
  | .json (.num _ _) => ⟨.json 200 (some (.obj newItem)), some db⟩
  | .json (.str _) => ⟨.json 200 (some (.obj newItem)), some db⟩
  | v =>
    let db1 := assignProp db resource (.obj (spreadInto (ownEntries v) newItem))
    ⟨.json 200 (some (.obj newItem)), some db1⟩

/-- The call `items.findIndex(item => item.id === id)`. -/
def findIndexStrict (id : JSNum) : List JSON → Except JSError (Option Nat)
  | [] => .ok none
  | item :: rest => do
    let v ← getId item
    if strictEqNumber v id then pure (some 0)
    else do
      let r ← findIndexStrict id rest
      pure (r.map (· + 1))

/-- Handler of `PUT /api/:resource/:id`. -/
def putItem (db : Fields) (resource idParam : String) (updatedData : Fields) : Outcome :=
  let id := parseInt idParam
  match getProp db resource with
  | .undefined => notFound "Recurso no encontrado"
  | .json (.arr items) =>
    match findIndexStrict id items with
    | .error _ => raised
    | .ok (some index) =>
      let merged := JSON.obj
        (spreadInto (ownEntries (.json (items.getD index .null))) updatedData)
      let db1 := assignProp db resource (.arr (items.set index merged))
      ⟨.json 200 (some merged), some db1⟩
    | .ok none => notFound "Item no encontrado"
  | v =>
    let merged := JSON.obj (spreadInto (ownEntries v) updatedData)
    ⟨.json 200 (some merged), some (assignProp db resource merged)⟩

/-- The call `items.filter(item => item.id !== id)`. -/
def filterNotId (id : JSNum) : List JSON → Except JSError (List JSON)
  | [] => .ok []
  | item :: rest => do
    let v ← getId item
    let kept ← filterNotId id rest
    pure (if strictEqNumber v id then kept else item :: kept)

/-- Handler of `DELETE /api/:resource/:id`. -/
def deleteItem (db : Fields) (resource idParam : String) : Outcome :=
  let id := parseInt idParam
  match getProp db resource with
  | .json (.arr items) =>
    match filterNotId id items with
    | .error _ => raised
    | .ok kept =>
      ⟨.json 200 (some (.obj [("success", .bool true), ("message", .str "Item eliminado")])),
        some (assignProp db resource (.arr kept))⟩
  | _ => notFound "Recurso no encontrado o no es un array"

/-- Handler of `PUT /api/activeOrders`. -/
def putActiveOrders (db : Fields) (body : Fields) : Outcome :=
  ⟨.json 200 (some (.obj body)), some (assignProp db "activeOrders" (.obj body))⟩

/-! ## Vocabulary of the specification -/

/-- Decimal text of an integer: `Number::toString` on the integers of magnitude at most
`2 ^ 53`. It is the value given to `nts` in the examples, whose ids are such integers. -/
def integerText (m : Int) (_e : Nat) : String := toString m

/-- The record `item` carries the integer id `n`. -/
def HasIntId (item : JSON) (n : Int) : Prop :=
  ∃ fs, item = .obj fs ∧ getOwn "id" fs = some (.int n)

/-- The record `item` has no id, or an id that is `null`, a boolean, a number or a string. -/
def HasPrimitiveId (item : JSON) : Prop :=
  ∃ fs, item = .obj fs ∧
    ∀ v, getOwn "id" fs = some v → (∀ xs, v ≠ .arr xs) ∧ (∀ gs, v ≠ .obj gs)

/-- The record `item` carries a number as its id. -/
def HasNumberId (item : JSON) : Prop :=
  ∃ fs m e, item = .obj fs ∧ getOwn "id" fs = some (.num m e)

/-- An optional minus sign followed by one or more decimal digits. -/
def IsDecimalInteger (s : String) : Prop :=
  ∃ ds : List Char, ds ≠ [] ∧ (∀ c ∈ ds, c.isDigit = true) ∧
    (s.toList = ds ∨ s.toList = '-' :: ds)

/-- Names of the resources of a document, in property order. -/
def resourceNames (db : Fields) : List String := db.map Prod.fst

/-- The records of a collection carry integer ids that are pairwise different. -/
def UniqueIntIds (items : List JSON) : Prop :=
  ∃ ids : List Int, List.Forall₂ HasIntId items ids ∧ ids.Nodup

/-- A resource value follows the convention on ids: the records of a collection carry integer
ids that are unique within it, and any other value has no own property `id`. -/
def FollowsIdConvention (v : JSON) : Prop :=
  match v with
  | .arr items => UniqueIntIds items
  | w => getOwn "id" (ownEntries (.json w)) = none

/-- The convention on ids holds of every resource of the document. -/
def IdConvention (db : Fields) : Prop :=
  ∀ k v, (k, v) ∈ db → FollowsIdConvention v

/-- The integer ids of a collection are all of magnitude below `2 ^ 53`. -/
def SafeIds (items : List JSON) : Prop :=
  ∀ item ∈ items, ∀ n, HasIntId item n → -9007199254740992 < n ∧ n < 9007199254740992

/-- The document `{ users: [], menu: [], orders: [], activeOrders: {} }` of `readDB`. -/
def defaultDocument : Fields :=
  [("users", .arr []), ("menu", .arr []), ("orders", .arr []), ("activeOrders", .obj [])]

/-- Two users with the ids `1` and `2`, and no active orders. -/
def twoUsers : Fields :=
  [("users", .arr [.obj [("id", .int 1)], .obj [("id", .int 2)]]), ("activeOrders", .obj [])]

/-- The text `s` is an optional minus sign followed by decimal digits that denote `n`. -/
def DecimalTextOf (s : String) (n : Int) : Prop :=
  ∃ ds : List Char, ds ≠ [] ∧ (∀ c ∈ ds, c.isDigit = true) ∧
    ((s.toList = ds ∧ n = (natOfDigits ds : Int)) ∨
     (s.toList = '-' :: ds ∧ n = -(natOfDigits ds : Int)))

/-- The test `item.id === n` on a record (`false` on what is not an object). -/
def idIs (n : JSNum) (item : JSON) : Bool :=
  match item with
  | .obj fs => strictEqNumber (getOwn "id" fs) n
  | _ => false

/-- The test `item.id == id` on a record when it yields a truth value (`false` on what is
not an object and when the comparison raises). -/
def looseMatch (nts : Int → Nat → String) (id : String) (item : JSON) : Bool :=
  match item with
  | .obj fs =>
    match looseEqString nts (getOwn "id" fs) id with
    | .ok b => b
    | .error _ => false
  | _ => false

/-! ## The document store -/

/-- The function `readDB`. The variable `DB_FILE` is `undefined` (`none`) until
`initializeDatabase` has run, and the test `!DB_FILE` also holds of the empty string.
`readFileSync` stands for `fs.readFileSync(·, 'utf8')` and `parse` for `JSON.parse`: each
returns a value or throws. The result is an `Except` so that raising can be expressed. -/
def readDB {ε : Type} (dbFile : Option String) (readFileSync : String → Except ε String)
    (parse : String → Except ε JSON) : Except ε JSON :=
  match dbFile with
  | none => .ok (.obj defaultDocument)
  | some path =>
    if path = "" then .ok (.obj defaultDocument)
    else
      match (do let data ← readFileSync path; parse data) with
      | .ok v => .ok v
      | .error _ => .ok (.obj defaultDocument)

/-! ## Lemmas: own properties -/

theorem hasKey_eq_false {k : String} {fs : Fields} : hasKey k fs = false ↔ getOwn k fs = none := by
  simp [hasKey]

theorem getOwn_cons (k k1 : String) (v1 : JSON) (rest : Fields) :
    getOwn k ((k1, v1) :: rest) = if k1 = k then some v1 else getOwn k rest := rfl

theorem getOwn_replaceProp (k k' : String) (v : JSON) (fs : Fields)
    (h : getOwn k fs ≠ none) :
    getOwn k' (replaceProp k v fs) = if k' = k then some v else getOwn k' fs := by
  induction fs with
  | nil => simp [getOwn] at h
  | cons p rest ih =>
    obtain ⟨k1, v1⟩ := p
    by_cases h1 : k1 = k
    · subst h1
      by_cases h2 : k' = k1
      · simp [replaceProp, getOwn, h2]
      · have h3 : ¬ k1 = k' := fun h => h2 h.symm
        simp [replaceProp, getOwn, h2, h3]
    · have hr : getOwn k rest ≠ none := by simpa [getOwn, h1] using h
      by_cases h2 : k' = k
      · subst h2
        simp [replaceProp, getOwn, h1, ih hr]
      · simp [replaceProp, getOwn, h1, ih hr, h2]

theorem getOwn_insertIndexed (n : Nat) (k k' : String) (v : JSON) (fs : Fields)
    (h : getOwn k fs = none) :
    getOwn k' (insertIndexed n k v fs) = if k' = k then some v else getOwn k' fs := by
  induction fs with
  | nil =>
    by_cases h2 : k' = k
    · simp [insertIndexed, getOwn, h2]
    · have h3 : ¬ k = k' := fun h => h2 h.symm
      simp [insertIndexed, getOwn, h2, h3]
  | cons p rest ih =>
    obtain ⟨k1, v1⟩ := p
    have h1 : ¬ k1 = k := by
      intro e; simp [getOwn, e] at h
    have hr : getOwn k rest = none := by simpa [getOwn, h1] using h
    by_cases h2 : k' = k
    · subst h2
      simp only [insertIndexed]
      split
      · split
        · simp [getOwn, h1, ih hr]
        · simp [getOwn]
      · simp [getOwn]
    · have h3 : ¬ k = k' := fun h => h2 h.symm
      simp only [insertIndexed]
      split
      · split
        · simp [getOwn, ih hr, h2]
        · simp [getOwn, h2, h3]
      · simp [getOwn, h2, h3]

theorem getOwn_append (k : String) (fs gs : Fields) :
    getOwn k (fs ++ gs) = (getOwn k fs).orElse (fun _ => getOwn k gs) := by
  induction fs with
  | nil => simp [getOwn]
  | cons p rest ih =>
    obtain ⟨k1, v1⟩ := p
    by_cases h1 : k1 = k <;> simp [getOwn, h1, ih]

theorem getOwn_insertProp (k k' : String) (v : JSON) (fs : Fields)
    (h : getOwn k fs = none) :
    getOwn k' (insertProp k v fs) = if k' = k then some v else getOwn k' fs := by
  unfold insertProp
  split
  · exact getOwn_insertIndexed _ k k' v fs h
  · rw [getOwn_append]
    by_cases h2 : k' = k
    · subst h2; simp [h, getOwn]
    · have h3 : ¬ k = k' := fun e => h2 e.symm
      cases hg : getOwn k' fs <;> simp [getOwn, h2, h3]

theorem getOwn_setProp (k k' : String) (v : JSON) (fs : Fields) :
    getOwn k' (setProp k v fs) = if k' = k then some v else getOwn k' fs := by
  unfold setProp
  by_cases h : hasKey k fs = true
  · rw [if_pos h]
    exact getOwn_replaceProp k k' v fs (by simpa [hasKey, Option.isSome_iff_ne_none] using h)
  · rw [if_neg h]
    exact getOwn_insertProp k k' v fs (by simpa [hasKey] using h)

/-- Assignment to a key other than an inherited `__proto__`. -/
theorem getOwn_assignProp (k k' : String) (v : JSON) (db : Fields)
    (h : k ≠ "__proto__" ∨ getOwn k db ≠ none) :
    getOwn k' (assignProp db k v) = if k' = k then some v else getOwn k' db := by
  unfold assignProp
  by_cases hk : hasKey k db = true
  · rw [if_pos hk]
    exact getOwn_replaceProp k k' v db (by simpa [hasKey, Option.isSome_iff_ne_none] using hk)
  · rw [if_neg hk]
    have hn : getOwn k db = none := by simpa [hasKey] using hk
    rcases h with h | h
    · rw [if_neg h]
      exact getOwn_insertProp k k' v db hn
    · exact absurd hn h

theorem getOwn_assignProp_of_ne (k k' : String) (v : JSON) (db : Fields) (hne : k' ≠ k) :
    getOwn k' (assignProp db k v) = getOwn k' db := by
  unfold assignProp
  by_cases hk : hasKey k db = true
  · rw [if_pos hk, getOwn_replaceProp k k' v db
      (by simpa [hasKey, Option.isSome_iff_ne_none] using hk), if_neg hne]
  · rw [if_neg hk]
    have hn : getOwn k db = none := by simpa [hasKey] using hk
    split
    · rfl
    · rw [getOwn_insertProp k k' v db hn, if_neg hne]

theorem replaceProp_self (k : String) (v : JSON) (fs : Fields) (h : getOwn k fs = some v) :
    replaceProp k v fs = fs := by
  induction fs with
  | nil => rfl
  | cons p rest ih =>
    obtain ⟨k1, v1⟩ := p
    by_cases h1 : k1 = k
    · subst h1
      have : v1 = v := by simpa [getOwn] using h
      simp [replaceProp, this]
    · have hr : getOwn k rest = some v := by simpa [getOwn, h1] using h
      simp [replaceProp, h1, ih hr]

theorem keys_replaceProp (k : String) (v : JSON) (fs : Fields) :
    (replaceProp k v fs).map Prod.fst = fs.map Prod.fst := by
  induction fs with
  | nil => rfl
  | cons p rest ih =>
    obtain ⟨k1, v1⟩ := p
    by_cases h1 : k1 = k
    · simp [replaceProp, h1]
    · simp [replaceProp, h1, ih]

theorem getOwn_spreadInto_of_none (k : String) (src target : Fields)
    (h : getOwn k src = none) :
    getOwn k (spreadInto target src) = getOwn k target := by
  induction src generalizing target with
  | nil => rfl
  | cons p rest ih =>
    obtain ⟨k1, v1⟩ := p
    have h1 : ¬ k1 = k := by intro e; simp [getOwn, e] at h
    have hr : getOwn k rest = none := by simpa [getOwn, h1] using h
    have h2 : ¬ k = k1 := fun e => h1 e.symm
    show getOwn k (spreadInto (setProp k1 v1 target) rest) = _
    rw [ih _ hr, getOwn_setProp, if_neg h2]

theorem getOwn_spreadInto_of_some (k : String) (v : JSON) (src target : Fields)
    (hnd : (src.map Prod.fst).Nodup) (h : getOwn k src = some v) :
    getOwn k (spreadInto target src) = some v := by
  induction src generalizing target with
  | nil => simp [getOwn] at h
  | cons p rest ih =>
    obtain ⟨k1, v1⟩ := p
    have hnd' : (rest.map Prod.fst).Nodup := (List.nodup_cons.mp hnd).2
    show getOwn k (spreadInto (setProp k1 v1 target) rest) = _
    by_cases h1 : k1 = k
    · subst h1
      have hv : v1 = v := by simpa [getOwn] using h
      have hnot : k1 ∉ rest.map Prod.fst := (List.nodup_cons.mp hnd).1
      have hr : getOwn k1 rest = none := by
        clear ih h hnd hnd'
        induction rest with
        | nil => rfl
        | cons q r ihr =>
          obtain ⟨k2, v2⟩ := q
          have : ¬ k2 = k1 := by
            intro e; apply hnot; simp [e]
          have hnot' : k1 ∉ r.map Prod.fst := by
            intro hm; apply hnot; simp at hm ⊢; right; exact hm
          simp [getOwn, this, ihr hnot']
      rw [getOwn_spreadInto_of_none _ _ _ hr, getOwn_setProp, if_pos rfl, hv]
    · have hr : getOwn k rest = some v := by simpa [getOwn, h1] using h
      exact ih _ hnd' hr

/-! ## Lemmas: the next id -/

theorem mapM_getId_of_intIds {items : List JSON} {ids : List Int}
    (h : List.Forall₂ HasIntId items ids) :
    items.mapM getId = .ok (ids.map (fun n => some (JSON.int n))) := by
  induction h with
  | nil => rfl
  | cons hx _ ih =>
    obtain ⟨fs, rfl, hid⟩ := hx
    rw [List.mapM_cons, ih]
    simp [getId, hid, bind, Except.bind, pure, Except.pure]

theorem mapM_toNumber_ints (nts : Int → Nat → String) (ids : List Int) :
    (ids.map (fun n => some (JSON.int n))).mapM (toNumber nts)
      = .ok (ids.map (fun n => JSNum.fin n 0)) := by
  induction ids with
  | nil => rfl
  | cons n rest ih =>
    rw [List.map_cons, List.mapM_cons, ih]
    simp [toNumber, bind, Except.bind, pure, Except.pure]

theorem mathMax_ints (ids : List Int) (hne : ids ≠ []) :
    ∃ m ∈ ids, (∀ i ∈ ids, i ≤ m) ∧ mathMax (ids.map (fun n => JSNum.fin n 0)) = .fin m 0 := by
  induction ids with
  | nil => exact absurd rfl hne
  | cons n rest ih =>
    by_cases hr : rest = []
    · subst hr
      refine ⟨n, by simp, by simp, ?_⟩
      simp [mathMax, JSNum.max2, JSNum.lt]
    · obtain ⟨m, hm, hmax, hval⟩ := ih hr
      simp only [List.map_cons, mathMax, hval]
      by_cases hlt : n < m
      · refine ⟨m, List.mem_cons_of_mem _ hm, ?_, ?_⟩
        · intro i hi
          rcases List.mem_cons.mp hi with h | h
          · subst h; exact le_of_lt hlt
          · exact hmax i h
        · simp [JSNum.max2, JSNum.lt, hlt]
      · refine ⟨n, by simp, ?_, ?_⟩
        · intro i hi
          rcases List.mem_cons.mp hi with h | h
          · subst h; exact le_refl _
          · exact le_trans (hmax i h) (not_lt.mp hlt)
        · simp [JSNum.max2, JSNum.lt, hlt]

theorem nextId_of_intIds (nts : Int → Nat → String) {items : List JSON} {ids : List Int}
    (h : List.Forall₂ HasIntId items ids)
    (hsafe : ∀ n ∈ ids, -9007199254740992 < n ∧ n < 9007199254740992) :
    (ids = [] → nextId nts items = .ok (.fin 1 0)) ∧
    (∀ m ∈ ids, (∀ i ∈ ids, i ≤ m) → nextId nts items = .ok (.fin (m + 1) 0)) := by
  constructor
  · intro he
    subst he
    cases h
    rfl
  · intro m hm hmax
    have hne : ids ≠ [] := List.ne_nil_of_mem hm
    have hlen : items.length > 0 := by
      rw [h.length_eq]; exact List.length_pos.mpr hne
    obtain ⟨m', hm', hmax', hval⟩ := mathMax_ints ids hne
    have hmm : m' = m := le_antisymm (hmax m' hm') (hmax' m hm)
    subst hmm
    obtain ⟨h1, h2⟩ := hsafe m' hm
    unfold nextId
    rw [if_pos hlen, mapM_getId_of_intIds h]
    simp only [bind, Except.bind, mapM_toNumber_ints, hval, pure, Except.pure]
    have hc : True ∧ -9007199254740992 ≤ m' + 1 ∧ m' + 1 ≤ 9007199254740992 :=
      ⟨trivial, by omega, by omega⟩
    simp only [JSNum.addOne, if_pos hc]

theorem toNumber_of_primitive (nts : Int → Nat → String) (v : Option JSON)
    (h : ∀ w, v = some w → (∀ xs, w ≠ .arr xs) ∧ (∀ gs, w ≠ .obj gs)) :
    ∃ n, toNumber nts v = .ok n := by
  cases v with
  | none => exact ⟨_, rfl⟩
  | some w =>
    cases w with
    | null => exact ⟨_, rfl⟩
    | bool b => exact ⟨_, rfl⟩
    | num m e => exact ⟨_, rfl⟩
    | str s => exact ⟨_, rfl⟩
    | arr xs => exact absurd rfl ((h _ rfl).1 xs)
    | obj gs => exact absurd rfl ((h _ rfl).2 gs)

theorem mapM_toNumber_of_primitive (nts : Int → Nat → String) (ids : List (Option JSON))
    (h : ∀ v ∈ ids, ∀ w, v = some w → (∀ xs, w ≠ .arr xs) ∧ (∀ gs, w ≠ .obj gs)) :
    ∃ ns, ids.mapM (toNumber nts) = .ok ns := by
  induction ids with
  | nil => exact ⟨[], rfl⟩
  | cons v rest ih =>
    obtain ⟨n, hn⟩ := toNumber_of_primitive nts v (h v (by simp))
    obtain ⟨ns, hns⟩ := ih (fun x hx => h x (List.mem_cons_of_mem _ hx))
    refine ⟨n :: ns, ?_⟩
    rw [List.mapM_cons, hn, hns]
    rfl

theorem mapM_getId_of_primitive (items : List JSON) (h : ∀ item ∈ items, HasPrimitiveId item) :
    ∃ ids, items.mapM getId = .ok ids ∧
      ∀ v ∈ ids, ∀ w, v = some w → (∀ xs, w ≠ .arr xs) ∧ (∀ gs, w ≠ .obj gs) := by
  induction items with
  | nil => exact ⟨[], rfl, by simp⟩
  | cons item rest ih =>
    obtain ⟨fs, rfl, hfs⟩ := h item (by simp)
    obtain ⟨ids, hids, hprim⟩ := ih (fun x hx => h x (List.mem_cons_of_mem _ hx))
    refine ⟨getOwn "id" fs :: ids, ?_, ?_⟩
    · rw [List.mapM_cons, hids]
      rfl
    · intro v hv w hw
      rcases List.mem_cons.mp hv with rfl | hv
      · exact hfs w hw
      · exact hprim v hv w hw

/-- The next id can be computed whenever the records have primitive ids (or none). -/
theorem nextId_of_primitive_ids (nts : Int → Nat → String) (items : List JSON)
    (h : ∀ item ∈ items, HasPrimitiveId item) : ∃ n, nextId nts items = .ok n := by
  unfold nextId
  split
  · obtain ⟨ids, hids, hprim⟩ := mapM_getId_of_primitive items h
    obtain ⟨ns, hns⟩ := mapM_toNumber_of_primitive nts ids hprim
    refine ⟨(mathMax ns).addOne, ?_⟩
    rw [hids]
    show (ids.mapM (toNumber nts) >>= fun ns => pure (mathMax ns).addOne) = _
    rw [hns]
    rfl
  · exact ⟨_, rfl⟩

/-! ## Lemmas: the handlers on a collection -/

theorem getProp_of_own {db : Fields} {k : String} {v : JSON} (h : getOwn k db = some v) :
    getProp db k = .json v := by
  simp [getProp, h]

theorem assignProp_of_own {db : Fields} {k : String} {v : JSON} (w : JSON)
    (h : getOwn k db = some v) : assignProp db k w = replaceProp k w db := by
  simp [assignProp, hasKey, h]

theorem postResource_collection (nts : Int → Nat → String) {db : Fields} {resource : String}
    {items : List JSON} {n : JSNum} (payload : Fields)
    (hres : getOwn resource db = some (.arr items)) (hid : nextId nts items = .ok n) :
    postResource nts db resource payload =
      ⟨.json 200 (some (.obj (assignProp payload "id" n.toJSON))),
        some (replaceProp resource
          (.arr (items ++ [.obj (assignProp payload "id" n.toJSON)])) db)⟩ := by
  simp only [postResource, getProp_of_own hres, hid, assignProp_of_own _ hres]

theorem findIndexStrict_some {n : JSNum} {items : List JSON} {i : Nat}
    (h : findIndexStrict n items = .ok (some i)) :
    ∃ old, items[i]? = some (.obj old) ∧ strictEqNumber (getOwn "id" old) n = true := by
  induction items generalizing i with
  | nil => simp [findIndexStrict] at h
  | cons item rest ih =>
    have step : ∀ v : Option JSON, getId item = .ok v → strictEqNumber v n = false →
        ∃ j, findIndexStrict n rest = .ok (some j) ∧ i = j + 1 := by
      intro v hv hs
      simp only [findIndexStrict, hv, bind, Except.bind, hs] at h
      cases hr : findIndexStrict n rest with
      | error e => simp [hr] at h
      | ok r =>
        cases r with
        | none => simp [hr, pure, Except.pure] at h
        | some j =>
          refine ⟨j, rfl, ?_⟩
          simp [hr, pure, Except.pure] at h
          exact h.symm
    cases item with
    | null => simp [findIndexStrict, getId, bind, Except.bind] at h
    | obj fs =>
      by_cases hs : strictEqNumber (getOwn "id" fs) n = true
      · have : i = 0 := by
          simp [findIndexStrict, getId, bind, Except.bind, hs, pure, Except.pure] at h
          exact h.symm
        subst this
        exact ⟨fs, by simp, hs⟩
      · obtain ⟨j, hj, rfl⟩ := step (getOwn "id" fs) rfl (by simpa using hs)
        obtain ⟨old, ho, hm⟩ := ih hj
        exact ⟨old, by simpa using ho, hm⟩
    | bool b =>
      obtain ⟨j, hj, rfl⟩ := step none rfl rfl
      obtain ⟨old, ho, hm⟩ := ih hj
      exact ⟨old, by simpa using ho, hm⟩
    | num m e =>
      obtain ⟨j, hj, rfl⟩ := step none rfl rfl
      obtain ⟨old, ho, hm⟩ := ih hj
      exact ⟨old, by simpa using ho, hm⟩
    | str s =>
      obtain ⟨j, hj, rfl⟩ := step none rfl rfl
      obtain ⟨old, ho, hm⟩ := ih hj
      exact ⟨old, by simpa using ho, hm⟩
    | arr xs =>
      obtain ⟨j, hj, rfl⟩ := step none rfl rfl
      obtain ⟨old, ho, hm⟩ := ih hj
      exact ⟨old, by simpa using ho, hm⟩

theorem set_of_getElem? {α : Type} {xs : List α} {i : Nat} {x : α} (h : xs[i]? = some x) :
    xs.set i x = xs := by
  induction xs generalizing i with
  | nil => rfl
  | cons y ys ih =>
    cases i with
    | zero =>
      have : y = x := by simpa using h
      simp [this]
    | succ j =>
      have : ys[j]? = some x := by simpa using h
      simp [ih this]

/-- In an array of objects `findIndex` returns the first index whose record has the id. -/
theorem findIndexStrict_of_records {n : JSNum} {items : List JSON}
    (hrec : ∀ item ∈ items, ∃ fs, item = .obj fs)
    (hmatch : ∃ fs, .obj fs ∈ items ∧ strictEqNumber (getOwn "id" fs) n = true) :
    ∃ index, findIndexStrict n items = .ok (some index) ∧
      ∀ j, j < index → ∀ fs, items[j]? = some (.obj fs) →
        strictEqNumber (getOwn "id" fs) n = false := by
  induction items with
  | nil =>
    obtain ⟨fs, hmem, -⟩ := hmatch
    exact absurd hmem (List.not_mem_nil _)
  | cons item rest ih =>
    obtain ⟨fs0, rfl⟩ := hrec _ (List.mem_cons_self _ _)
    by_cases h0 : strictEqNumber (getOwn "id" fs0) n = true
    · refine ⟨0, ?_, ?_⟩
      · simp [findIndexStrict, getId, bind, Except.bind, h0, pure, Except.pure]
      · intro j hj; exact absurd hj (Nat.not_lt_zero j)
    · have h0' : strictEqNumber (getOwn "id" fs0) n = false := by simpa using h0
      have hrest : ∃ fs, .obj fs ∈ rest ∧ strictEqNumber (getOwn "id" fs) n = true := by
        obtain ⟨fs, hmem, hs⟩ := hmatch
        rcases List.mem_cons.mp hmem with h | h
        · cases h
          exact absurd hs h0
        · exact ⟨fs, h, hs⟩
      obtain ⟨index, hfind, hfirst⟩ :=
        ih (fun x hx => hrec x (List.mem_cons_of_mem _ hx)) hrest
      refine ⟨index + 1, ?_, ?_⟩
      · simp [findIndexStrict, getId, bind, Except.bind, h0', hfind, pure, Except.pure]
      · intro j hj fs hfs
        cases j with
        | zero =>
          have : fs0 = fs := by simpa using hfs
          rw [← this]; exact h0'
        | succ j => exact hfirst j (by omega) fs (by simpa using hfs)

theorem putItem_collection {db : Fields} {resource idParam : String} {items : List JSON}
    {index : Nat} {old : Fields} (payload : Fields)
    (hres : getOwn resource db = some (.arr items))
    (hfind : findIndexStrict (parseInt idParam) items = .ok (some index))
    (hold : items[index]? = some (.obj old)) :
    putItem db resource idParam payload =
      ⟨.json 200 (some (.obj (spreadInto old payload))),
        some (replaceProp resource
          (.arr (items.set index (.obj (spreadInto old payload)))) db)⟩ := by
  have hget : items.getD index .null = .obj old := by
    simp [List.getD_eq_getElem?_getD, hold]
  simp only [putItem, getProp_of_own hres, hfind, assignProp_of_own _ hres, hget, ownEntries]

/-! ## Lemmas: decimal integer texts -/

theorem isDigit_iff (c : Char) : c.isDigit = true ↔ 48 ≤ c.toNat ∧ c.toNat ≤ 57 := by
  simp [Char.isDigit, Char.toNat, UInt32.le_def, BitVec.le_def, UInt32.toNat]

theorem digit_not_space {c : Char} (h : c.isDigit = true) : isJSWhiteSpace c = false := by
  rw [isDigit_iff] at h
  simp [isJSWhiteSpace]
  omega

theorem digitValue_digit {c : Char} (h : c.isDigit = true) :
    digitValue 10 c = some (c.toNat - 48) := by
  rw [isDigit_iff] at h
  simp [digitValue, h]
  omega

theorem foldl_radix_ten (ds : List Char) (h : ∀ c ∈ ds, c.isDigit = true) (a : Nat) :
    ds.foldl (fun a c => 10 * a + (digitValue 10 c).getD 0) a
      = ds.foldl (fun a c => 10 * a + (c.toNat - 48)) a := by
  induction ds generalizing a with
  | nil => rfl
  | cons c rest ih =>
    simp only [List.foldl_cons, digitValue_digit (h c (by simp)), Option.getD_some]
    exact ih (fun d hd => h d (List.mem_cons_of_mem _ hd)) _

theorem natOfRadixDigits_ten (ds : List Char) (h : ∀ c ∈ ds, c.isDigit = true) :
    natOfRadixDigits 10 ds = natOfDigits ds :=
  foldl_radix_ten ds h 0

theorem dropWhile_space_digits {ds : List Char} (tl : List Char)
    (h : ∀ c ∈ ds, c.isDigit = true) (hne : ds ≠ []) :
    (ds ++ tl).dropWhile isJSWhiteSpace = ds ++ tl := by
  cases ds with
  | nil => exact absurd rfl hne
  | cons c rest =>
    simp [List.dropWhile_cons, digit_not_space (h c (by simp))]

theorem takeWhile_digits {ds : List Char} (h : ∀ c ∈ ds, c.isDigit = true) :
    ds.takeWhile (fun c => (digitValue 10 c).isSome) = ds := by
  rw [List.takeWhile_eq_self_iff]
  intro c hc
  simp [digitValue_digit (h c hc)]

theorem unsignedDecimal_digits {ds : List Char} (h : ∀ c ∈ ds, c.isDigit = true)
    (hne : ds ≠ []) : unsignedDecimal ds = some (natOfDigits ds, 1) := by
  have h1 : ds.dropWhile Char.isDigit = [] := by rw [List.dropWhile_eq_nil_iff]; exact h
  have h2 : ds.takeWhile Char.isDigit = ds := by rw [List.takeWhile_eq_self_iff]; exact h
  simp [unsignedDecimal, fractionPart, withExponent, h1, h2, hne]

theorem digit_ne {c d : Char} (h : c.isDigit = true) (hd : d.isDigit = false) : c ≠ d := by
  rintro rfl
  rw [h] at hd
  exact absurd hd (by decide)

theorem radixPrefix_digits {ds : List Char} (h : ∀ c ∈ ds, c.isDigit = true) :
    radixPrefix ds = (10, ds) := by
  unfold radixPrefix
  split
  · rename_i x t
    have hx : x.isDigit = true := h x (by simp)
    have h1 : x ≠ 'x' := digit_ne hx (by decide)
    have h2 : x ≠ 'X' := digit_ne hx (by decide)
    simp [h1, h2]
  · rfl

theorem splitSign_digits {ds : List Char} (h : ∀ c ∈ ds, c.isDigit = true) :
    splitSign ds = (false, ds) := by
  cases ds with
  | nil => rfl
  | cons c rest =>
    have hc := h c (by simp)
    have h1 : c ≠ '-' := digit_ne hc (by decide)
    have h2 : c ≠ '+' := digit_ne hc (by decide)
    unfold splitSign
    split
    · simp_all
    · simp_all
    · rfl

theorem parseInt_signed_digits (neg : Bool) {ds : List Char}
    (h : ∀ c ∈ ds, c.isDigit = true) (hne : ds ≠ []) (s : String)
    (hs : s.toList = (if neg then '-' :: ds else ds)) :
    parseInt s = roundDouble neg (natOfDigits ds) 1 := by
  have hsplit : splitSign (s.toList.dropWhile isJSWhiteSpace) = (neg, ds) := by
    rw [hs]
    cases neg with
    | true =>
      rw [if_pos rfl, List.dropWhile_cons_of_neg (by decide)]
      rfl
    | false =>
      have hd : List.dropWhile isJSWhiteSpace ds = ds := by
        simpa using dropWhile_space_digits [] h hne
      simp only [Bool.false_eq_true, if_false, hd, splitSign_digits h]
  simp only [parseInt, hsplit, radixPrefix_digits h, takeWhile_digits h, if_neg hne,
    natOfRadixDigits_ten ds h]

theorem trim_signed_digits (neg : Bool) {ds : List Char}
    (h : ∀ c ∈ ds, c.isDigit = true) (hne : ds ≠ []) :
    (((if neg then '-' :: ds else ds).dropWhile isJSWhiteSpace).reverse.dropWhile
      isJSWhiteSpace).reverse = (if neg then '-' :: ds else ds) := by
  have hrev : ∀ tl : List Char, (ds.reverse ++ tl).dropWhile isJSWhiteSpace = ds.reverse ++ tl :=
    fun tl => dropWhile_space_digits tl (fun c hc => h c (List.mem_reverse.mp hc))
      (by simpa using hne)
  cases neg with
  | true =>
    simp only [if_true]
    rw [List.dropWhile_cons_of_neg (by decide), List.reverse_cons, hrev]
    simp
  | false =>
    simp only [Bool.false_eq_true, if_false]
    have hd : List.dropWhile isJSWhiteSpace ds = ds := by
      simpa using dropWhile_space_digits [] h hne
    rw [hd]
    have := hrev []
    simp only [List.append_nil] at this
    rw [this, List.reverse_reverse]

theorem decimalLiteral_signed_digits (neg : Bool) {ds : List Char}
    (h : ∀ c ∈ ds, c.isDigit = true) (hne : ds ≠ []) :
    decimalLiteral (if neg then '-' :: ds else ds) = roundDouble neg (natOfDigits ds) 1 := by
  have hsplit : splitSign (if neg then '-' :: ds else ds) = (neg, ds) := by
    cases neg with
    | true => rfl
    | false => simpa using splitSign_digits h
  have hinf : ds ≠ "Infinity".toList := by
    intro e
    have := h 'I' (by rw [e]; decide)
    exact absurd this (by decide)
  simp only [decimalLiteral, hsplit, if_neg hinf, unsignedDecimal_digits h hne]

theorem numericLiteral_signed_digits (neg : Bool) {ds : List Char}
    (h : ∀ c ∈ ds, c.isDigit = true) (hne : ds ≠ []) :
    numericLiteral (if neg then '-' :: ds else ds) = roundDouble neg (natOfDigits ds) 1 := by
  rw [← decimalLiteral_signed_digits neg h hne]
  unfold numericLiteral
  split
  · rename_i heq
    cases neg with
    | true => simp at heq
    | false => simp at heq; exact absurd heq hne
  · rename_i x rest heq
    have hx : x.isDigit = true := by
      cases neg with
      | true => simp at heq
      | false =>
        simp only [Bool.false_eq_true, if_false] at heq
        exact h x (by rw [heq]; simp)
    have h1 : x ≠ 'x' := digit_ne hx (by decide)
    have h2 : x ≠ 'X' := digit_ne hx (by decide)
    have h3 : x ≠ 'o' := digit_ne hx (by decide)
    have h4 : x ≠ 'O' := digit_ne hx (by decide)
    have h5 : x ≠ 'b' := digit_ne hx (by decide)
    have h6 : x ≠ 'B' := digit_ne hx (by decide)
    simp [h1, h2, h3, h4, h5, h6]
  · rfl

theorem stringToNumber_signed_digits (neg : Bool) {ds : List Char}
    (h : ∀ c ∈ ds, c.isDigit = true) (hne : ds ≠ []) (s : String)
    (hs : s.toList = (if neg then '-' :: ds else ds)) :
    stringToNumber s = roundDouble neg (natOfDigits ds) 1 := by
  unfold stringToNumber
  rw [hs, trim_signed_digits neg h hne, numericLiteral_signed_digits neg h hne]

/-- On a decimal integer text `parseInt` and the conversion to a Number agree. -/
theorem stringToNumber_eq_parseInt {s : String} (h : IsDecimalInteger s) :
    stringToNumber s = parseInt s := by
  obtain ⟨ds, hne, hd, hs⟩ := h
  rcases hs with hs | hs
  · rw [stringToNumber_signed_digits false hd hne s (by simpa using hs),
      parseInt_signed_digits false hd hne s (by simpa using hs)]
  · rw [stringToNumber_signed_digits true hd hne s (by simpa using hs),
      parseInt_signed_digits true hd hne s (by simpa using hs)]

/-! ## Lemmas: deletion and lookup -/

theorem getProp_eq_json {db : Fields} {k : String} {v : JSON} (h : getProp db k = .json v) :
    getOwn k db = some v := by
  unfold getProp at h
  cases hg : getOwn k db with
  | some w => simpa [hg] using h
  | none =>
    rw [hg] at h
    simp only at h
    split at h
    · cases h
    · split at h <;> cases h

theorem getOwn_replaceProp_self (k : String) (v w : JSON) (db : Fields)
    (h : getOwn k db = some w) : getOwn k (replaceProp k v db) = some v := by
  rw [getOwn_replaceProp _ _ _ _ (by simp [h]), if_pos rfl]

/-- What `filter` keeps: the records whose id is not the given Number. -/
theorem filterNotId_ok {n : JSNum} {items kept : List JSON}
    (h : filterNotId n items = .ok kept) :
    kept.Sublist items ∧
    (∀ item ∈ kept, ∃ v, getId item = .ok v ∧ strictEqNumber v n = false) ∧
    filterNotId n kept = .ok kept := by
  induction items generalizing kept with
  | nil =>
    have : kept = [] := by simpa [filterNotId] using h.symm
    subst this
    exact ⟨List.Sublist.slnil, by simp, rfl⟩
  | cons item rest ih =>
    cases hv : getId item with
    | error e => simp [filterNotId, hv, bind, Except.bind] at h
    | ok v =>
      cases hr : filterNotId n rest with
      | error e => simp [filterNotId, hv, hr, bind, Except.bind] at h
      | ok kept' =>
        obtain ⟨hsub, hall, hidem⟩ := ih hr
        by_cases hs : strictEqNumber v n = true
        · have : kept = kept' := by
            simpa [filterNotId, hv, hr, bind, Except.bind, pure, Except.pure, hs] using h.symm
          subst this
          exact ⟨hsub.cons _, hall, hidem⟩
        · have hs' : strictEqNumber v n = false := by simpa using hs
          have : kept = item :: kept' := by
            simpa [filterNotId, hv, hr, bind, Except.bind, pure, Except.pure, hs'] using h.symm
          subst this
          refine ⟨hsub.cons₂ _, ?_, ?_⟩
          · intro x hx
            rcases List.mem_cons.mp hx with rfl | hx
            · exact ⟨v, hv, hs'⟩
            · exact hall x hx
          · simp [filterNotId, hv, hidem, bind, Except.bind, pure, Except.pure, hs']

/-- Nothing is removed when no record has the given id. -/
theorem filterNotId_of_no_match {n : JSNum} {items : List JSON}
    (h : ∀ item ∈ items, ∃ v, getId item = .ok v ∧ strictEqNumber v n = false) :
    filterNotId n items = .ok items := by
  induction items with
  | nil => rfl
  | cons item rest ih =>
    obtain ⟨v, hv, hs⟩ := h item (by simp)
    have hr := ih (fun x hx => h x (List.mem_cons_of_mem _ hx))
    simp [filterNotId, hv, hr, bind, Except.bind, pure, Except.pure, hs]

theorem filterNotId_total (n : JSNum) (items : List JSON)
    (h : ∀ item ∈ items, ∃ v, getId item = .ok v) :
    ∃ kept, filterNotId n items = .ok kept := by
  induction items with
  | nil => exact ⟨[], rfl⟩
  | cons item rest ih =>
    obtain ⟨v, hv⟩ := h item (by simp)
    obtain ⟨kept, hk⟩ := ih (fun x hx => h x (List.mem_cons_of_mem _ hx))
    exact ⟨if strictEqNumber v n = true then kept else item :: kept,
      by simp [filterNotId, hv, hk, bind, Except.bind, pure, Except.pure]⟩

theorem deleteItem_collection {db : Fields} {resource idParam : String}
    {items kept : List JSON} (hres : getOwn resource db = some (.arr items))
    (hk : filterNotId (parseInt idParam) items = .ok kept) :
    deleteItem db resource idParam =
      ⟨.json 200 (some (.obj [("success", .bool true), ("message", .str "Item eliminado")])),
        some (replaceProp resource (.arr kept) db)⟩ := by
  simp only [deleteItem, getProp_of_own hres, hk, assignProp_of_own _ hres]

/-- Deleting twice with the same parameter persists the same document as deleting once. -/
theorem deleteItem_idempotent (db : Fields) (resource idParam : String) :
    (deleteItem ((deleteItem db resource idParam).persisted db) resource idParam).persisted
        ((deleteItem db resource idParam).persisted db)
      = (deleteItem db resource idParam).persisted db := by
  cases hp : getProp db resource with
  | json v =>
    have hres := getProp_eq_json hp
    cases v with
    | arr items =>
      cases hk : filterNotId (parseInt idParam) items with
      | error e =>
        have h1 : deleteItem db resource idParam = raised := by
          simp only [deleteItem, hp, hk]
        simp [h1, raised, Outcome.persisted]
      | ok kept =>
        have h1 := deleteItem_collection hres hk
        have hres1 : getOwn resource (replaceProp resource (.arr kept) db) = some (.arr kept) :=
          getOwn_replaceProp_self _ _ _ _ hres
        have h2 := deleteItem_collection hres1 (filterNotId_ok hk).2.2
        rw [h1]
        simp only [Outcome.persisted, Option.getD_some]
        rw [h2]
        simp only [Option.getD_some]
        exact replaceProp_self _ _ _ hres1
    | null | bool _ | num _ _ | str _ | obj _ =>
      have h1 : deleteItem db resource idParam
          = notFound "Recurso no encontrado o no es un array" := by
        simp only [deleteItem, hp]
      simp [h1, notFound, Outcome.persisted]
  | undefined | function | objectPrototype =>
    have h1 : deleteItem db resource idParam
        = notFound "Recurso no encontrado o no es un array" := by
      simp only [deleteItem, hp]
    simp [h1, notFound, Outcome.persisted]

theorem findLoose_of_no_match (nts : Int → Nat → String) (s : String) {items : List JSON}
    (h : ∀ item ∈ items, ∃ v, getId item = .ok v ∧ looseEqString nts v s = .ok false) :
    findLoose nts s items = .ok none := by
  induction items with
  | nil => rfl
  | cons item rest ih =>
    obtain ⟨v, hv, hs⟩ := h item (by simp)
    have hr := ih (fun x hx => h x (List.mem_cons_of_mem _ hx))
    simp [findLoose, hv, hs, hr, bind, Except.bind]

theorem getId_of_numberId {item : JSON} (h : HasNumberId item) :
    ∃ m e, getId item = .ok (some (.num m e)) := by
  obtain ⟨fs, m, e, rfl, hid⟩ := h
  exact ⟨m, e, by simp [getId, hid]⟩

/-! ## Lemmas: resource names -/

theorem getProp_objectPrototype {db : Fields} {k : String}
    (h : getProp db k = .objectPrototype) : getOwn k db = none ∧ k = "__proto__" := by
  unfold getProp at h
  cases hg : getOwn k db with
  | some w => rw [hg] at h; cases h
  | none =>
    rw [hg] at h
    simp only at h
    by_cases hk : k = "__proto__"
    · exact ⟨rfl, hk⟩
    · rw [if_neg hk] at h
      split at h <;> cases h

theorem getProp_function {db : Fields} {k : String}
    (h : getProp db k = .function) :
    getOwn k db = none ∧ k ≠ "__proto__" ∧ k ∈ objectPrototypeMethods := by
  unfold getProp at h
  cases hg : getOwn k db with
  | some w => rw [hg] at h; cases h
  | none =>
    rw [hg] at h
    simp only at h
    by_cases hk : k = "__proto__"
    · rw [if_pos hk] at h; cases h
    · rw [if_neg hk] at h
      by_cases hm : k ∈ objectPrototypeMethods
      · exact ⟨rfl, hk, hm⟩
      · rw [if_neg hm] at h; cases h

theorem resourceNames_assignProp_own (db : Fields) (k : String) (v : JSON)
    (h : getOwn k db ≠ none) : resourceNames (assignProp db k v) = resourceNames db := by
  have : hasKey k db = true := by simpa [hasKey, Option.isSome_iff_ne_none] using h
  simp [assignProp, this, resourceNames, keys_replaceProp]

theorem assignProp_proto (db : Fields) (v : JSON) (h : getOwn "__proto__" db = none) :
    assignProp db "__proto__" v = db := by
  simp [assignProp, hasKey, h]

theorem names_postResource (nts : Int → Nat → String) (db : Fields) (resource : String)
    (payload : Fields) :
    resourceNames ((postResource nts db resource payload).persisted db) = resourceNames db := by
  cases hp : getProp db resource with
  | undefined => simp [postResource, hp, notFound, Outcome.persisted]
  | function => simp [postResource, hp, Outcome.persisted]
  | objectPrototype =>
    obtain ⟨hn, hk⟩ := getProp_objectPrototype hp
    subst hk
    simp [postResource, hp, Outcome.persisted, assignProp_proto _ _ hn]
  | json v =>
    have hres := getProp_eq_json hp
    have hown : getOwn resource db ≠ none := by simp [hres]
    cases v with
    | arr items =>
      cases hn : nextId nts items with
      | error e => simp [postResource, hp, hn, raised, Outcome.persisted]
      | ok n =>
        simp only [postResource, hp, hn, Outcome.persisted, Option.getD_some]
        exact resourceNames_assignProp_own _ _ _ hown
    | bool _ | num _ _ | str _ => simp [postResource, hp, Outcome.persisted]
    | null | obj _ =>
      simp only [postResource, hp, Outcome.persisted, Option.getD_some]
      exact resourceNames_assignProp_own _ _ _ hown

theorem names_deleteItem (db : Fields) (resource id : String) :
    resourceNames ((deleteItem db resource id).persisted db) = resourceNames db := by
  cases hp : getProp db resource with
  | undefined | function | objectPrototype =>
    simp [deleteItem, hp, notFound, Outcome.persisted]
  | json v =>
    have hres := getProp_eq_json hp
    have hown : getOwn resource db ≠ none := by simp [hres]
    cases v with
    | arr items =>
      cases hk : filterNotId (parseInt id) items with
      | error e => simp [deleteItem, hp, hk, raised, Outcome.persisted]
      | ok kept =>
        simp only [deleteItem, hp, hk, Outcome.persisted, Option.getD_some]
        exact resourceNames_assignProp_own _ _ _ hown
    | null | bool _ | num _ _ | str _ | obj _ =>
      simp [deleteItem, hp, notFound, Outcome.persisted]

theorem names_putItem (db : Fields) (resource id : String) (payload : Fields)
    (h : getOwn resource db ≠ none ∨ resource ∉ objectPrototypeMethods) :
    resourceNames ((putItem db resource id payload).persisted db) = resourceNames db := by
  cases hp : getProp db resource with
  | undefined => simp [putItem, hp, notFound, Outcome.persisted]
  | function =>
    obtain ⟨hn, -, hm⟩ := getProp_function hp
    rcases h with h | h
    · exact absurd hn h
    · exact absurd hm h
  | objectPrototype =>
    obtain ⟨hn, hk⟩ := getProp_objectPrototype hp
    subst hk
    simp [putItem, hp, Outcome.persisted, assignProp_proto _ _ hn]
  | json v =>
    have hres := getProp_eq_json hp
    have hown : getOwn resource db ≠ none := by simp [hres]
    cases v with
    | arr items =>
      cases hk : findIndexStrict (parseInt id) items with
      | error e => simp [putItem, hp, hk, raised, Outcome.persisted]
      | ok r =>
        cases r with
        | none => simp [putItem, hp, hk, notFound, Outcome.persisted]
        | some index =>
          simp only [putItem, hp, hk, Outcome.persisted, Option.getD_some]
          exact resourceNames_assignProp_own _ _ _ hown
    | null | bool _ | num _ _ | str _ | obj _ =>
      simp only [putItem, hp, Outcome.persisted, Option.getD_some]
      exact resourceNames_assignProp_own _ _ _ hown

theorem names_putActiveOrders (db body : Fields) :
    resourceNames ((putActiveOrders db body).persisted db)
      = if hasKey "activeOrders" db then resourceNames db
        else resourceNames db ++ ["activeOrders"] := by
  by_cases h : hasKey "activeOrders" db = true
  · rw [if_pos h]
    simp [putActiveOrders, Outcome.persisted, assignProp, h, resourceNames, keys_replaceProp]
  · rw [if_neg h]
    have h1 : arrayIndex? "activeOrders" = none := by decide
    have h2 : ("activeOrders" : String) ≠ "__proto__" := by decide
    simp [putActiveOrders, Outcome.persisted, assignProp, h, resourceNames, insertProp, h1, h2]

/-! ## Lemmas: the convention on ids -/

theorem mem_of_getOwn {k : String} {v : JSON} {db : Fields} (h : getOwn k db = some v) :
    (k, v) ∈ db := by
  induction db with
  | nil => simp [getOwn] at h
  | cons p rest ih =>
    obtain ⟨k1, v1⟩ := p
    by_cases h1 : k1 = k
    · subst h1
      have : v1 = v := by simpa [getOwn] using h
      simp [this]
    · exact List.mem_cons_of_mem _ (ih (by simpa [getOwn, h1] using h))

theorem mem_replaceProp {k k' : String} {v v' : JSON} {db : Fields}
    (h : (k', v') ∈ replaceProp k v db) : (k', v') ∈ db ∨ v' = v := by
  induction db with
  | nil => simp [replaceProp] at h
  | cons p rest ih =>
    obtain ⟨k1, v1⟩ := p
    by_cases h1 : k1 = k
    · simp only [replaceProp, if_pos h1, List.mem_cons, Prod.mk.injEq] at h
      rcases h with ⟨-, hv⟩ | h
      · exact Or.inr hv
      · exact Or.inl (List.mem_cons_of_mem _ h)
    · simp only [replaceProp, if_neg h1, List.mem_cons] at h
      rcases h with h | h
      · exact Or.inl (by simp [h])
      · rcases ih h with h | h
        · exact Or.inl (List.mem_cons_of_mem _ h)
        · exact Or.inr h

theorem mem_insertIndexed {n : Nat} {k k' : String} {v v' : JSON} {db : Fields}
    (h : (k', v') ∈ insertIndexed n k v db) : (k', v') ∈ db ∨ v' = v := by
  induction db with
  | nil =>
    simp only [insertIndexed, List.mem_singleton, Prod.mk.injEq] at h
    exact Or.inr h.2
  | cons p rest ih =>
    obtain ⟨k1, v1⟩ := p
    simp only [insertIndexed] at h
    split at h
    · split at h
      · rcases List.mem_cons.mp h with h | h
        · exact Or.inl (by simp [h])
        · rcases ih h with h | h
          · exact Or.inl (List.mem_cons_of_mem _ h)
          · exact Or.inr h
      · rcases List.mem_cons.mp h with h | h
        · exact Or.inr (by simpa using (Prod.mk.inj h).2)
        · exact Or.inl h
    · rcases List.mem_cons.mp h with h | h
      · exact Or.inr (by simpa using (Prod.mk.inj h).2)
      · exact Or.inl h

theorem mem_assignProp {k k' : String} {v v' : JSON} {db : Fields}
    (h : (k', v') ∈ assignProp db k v) : (k', v') ∈ db ∨ v' = v := by
  unfold assignProp at h
  split at h
  · exact mem_replaceProp h
  · split at h
    · exact Or.inl h
    · unfold insertProp at h
      split at h
      · exact mem_insertIndexed h
      · rcases List.mem_append.mp h with h | h
        · exact Or.inl h
        · exact Or.inr (by simpa using (Prod.mk.inj (List.mem_singleton.mp h)).2)

theorem idConvention_assignProp {db : Fields} (k : String) {v : JSON}
    (hdb : IdConvention db) (hv : FollowsIdConvention v) :
    IdConvention (assignProp db k v) := by
  intro k' v' hmem
  rcases mem_assignProp hmem with h | h
  · exact hdb k' v' h
  · rw [h]; exact hv

theorem intIds_of_filterNotId {n : JSNum} {items kept : List JSON} {ids : List Int}
    (hids : List.Forall₂ HasIntId items ids) (hk : filterNotId n items = .ok kept) :
    ∃ ids', List.Forall₂ HasIntId kept ids' ∧ ids'.Sublist ids := by
  induction hids generalizing kept with
  | nil =>
    have : kept = [] := by simpa [filterNotId] using hk.symm
    subst this
    exact ⟨[], .nil, List.Sublist.slnil⟩
  | @cons item i rest restIds hx _ ih =>
    cases hv : getId item with
    | error e => simp [filterNotId, hv, bind, Except.bind] at hk
    | ok v =>
      cases hr : filterNotId n rest with
      | error e => simp [filterNotId, hv, hr, bind, Except.bind] at hk
      | ok kept' =>
        obtain ⟨ids', hf, hs⟩ := ih hr
        by_cases hm : strictEqNumber v n = true
        · have : kept = kept' := by
            simpa [filterNotId, hv, hr, bind, Except.bind, pure, Except.pure, hm] using hk.symm
          subst this
          exact ⟨ids', hf, hs.cons _⟩
        · have hm' : strictEqNumber v n = false := by simpa using hm
          have : kept = item :: kept' := by
            simpa [filterNotId, hv, hr, bind, Except.bind, pure, Except.pure, hm'] using hk.symm
          subst this
          exact ⟨i :: ids', .cons hx hf, hs.cons₂ _⟩

theorem uniqueIntIds_of_filterNotId {n : JSNum} {items kept : List JSON}
    (h : UniqueIntIds items) (hk : filterNotId n items = .ok kept) : UniqueIntIds kept := by
  obtain ⟨ids, hids, hnd⟩ := h
  obtain ⟨ids', hf, hs⟩ := intIds_of_filterNotId hids hk
  exact ⟨ids', hf, hnd.sublist hs⟩

theorem forall₂_append_one {items : List JSON} {ids : List Int} {x : JSON} {n : Int}
    (h : List.Forall₂ HasIntId items ids) (hx : HasIntId x n) :
    List.Forall₂ HasIntId (items ++ [x]) (ids ++ [n]) := by
  induction h with
  | nil => exact .cons hx .nil
  | cons h1 _ ih => exact .cons h1 ih

theorem hasIntId_unique {item : JSON} {a b : Int} (ha : HasIntId item a) (hb : HasIntId item b) :
    a = b := by
  obtain ⟨fs, rfl, h1⟩ := ha
  obtain ⟨gs, hg, h2⟩ := hb
  cases hg
  rw [h1] at h2
  simpa [JSON.int] using h2

theorem safe_of_forall₂ {items : List JSON} {ids : List Int}
    (h : List.Forall₂ HasIntId items ids) (hsafe : SafeIds items) :
    ∀ n ∈ ids, -9007199254740992 < n ∧ n < 9007199254740992 := by
  induction h with
  | nil => intro n hn; exact absurd hn (List.not_mem_nil n)
  | @cons item i rest restIds hx _ ih =>
    intro n hn
    rcases List.mem_cons.mp hn with rfl | hn
    · exact hsafe item (by simp) _ hx
    · exact ih (fun it hit m hm => hsafe it (List.mem_cons_of_mem _ hit) m hm) n hn

/-- On a collection that follows the convention, with ids below `2 ^ 53`, the appended record
keeps the convention. -/
theorem uniqueIntIds_after_create (nts : Int → Nat → String) {items : List JSON}
    (payload : Fields) (h : UniqueIntIds items) (hsafe : SafeIds items) :
    ∃ n, nextId nts items = .ok n ∧
      UniqueIntIds (items ++ [.obj (assignProp payload "id" n.toJSON)]) := by
  obtain ⟨ids, hids, hnd⟩ := h
  have hs := safe_of_forall₂ hids hsafe
  obtain ⟨hempty, hmax⟩ := nextId_of_intIds nts hids hs
  have hkey : ("id" : String) ≠ "__proto__" ∨ getOwn "id" payload ≠ none := Or.inl (by decide)
  have hcreated : ∀ m : Int,
      HasIntId (.obj (assignProp payload "id" (JSNum.fin m 0).toJSON)) m := fun m =>
    ⟨_, rfl, by rw [getOwn_assignProp _ _ _ _ hkey, if_pos rfl]; rfl⟩
  by_cases he : ids = []
  · subst he
    refine ⟨_, hempty rfl, [1], ?_, by simp⟩
    cases hids
    exact .cons (hcreated 1) .nil
  · obtain ⟨m, hm, hle, -⟩ := mathMax_ints ids he
    refine ⟨_, hmax m hm hle, ids ++ [m + 1], forall₂_append_one hids (hcreated (m + 1)), ?_⟩
    rw [List.nodup_append]
    refine ⟨hnd, by simp, ?_⟩
    intro a ha hb
    rw [List.mem_singleton] at hb
    have := hle a ha
    omega

theorem forall₂_set {items : List JSON} {ids : List Int} {i : Nat} {x y : JSON}
    (h : List.Forall₂ HasIntId items ids) (hx : items[i]? = some x)
    (hy : ∀ n, HasIntId x n → HasIntId y n) :
    List.Forall₂ HasIntId (items.set i y) ids := by
  induction h generalizing i with
  | nil => simp at hx
  | @cons item n rest restIds h1 h2 ih =>
    cases i with
    | zero =>
      have : item = x := by simpa using hx
      subst this
      exact .cons (hy n h1) h2
    | succ j =>
      exact .cons h1 (ih (by simpa using hx))

theorem uniqueIntIds_after_update {items : List JSON} {index : Nat} {old : Fields}
    (payload : Fields) (h : UniqueIntIds items) (hold : items[index]? = some (.obj old))
    (hp : getOwn "id" payload = none) :
    UniqueIntIds (items.set index (.obj (spreadInto old payload))) := by
  obtain ⟨ids, hids, hnd⟩ := h
  refine ⟨ids, forall₂_set hids hold ?_, hnd⟩
  rintro n ⟨fs, hfs, hid⟩
  cases hfs
  exact ⟨_, rfl, by rw [getOwn_spreadInto_of_none _ _ _ hp, hid]⟩

theorem followsIdConvention_merge {v : JSON} (payload : Fields)
    (hv : getOwn "id" (ownEntries (.json v)) = none) (hp : getOwn "id" payload = none) :
    FollowsIdConvention (.obj (spreadInto (ownEntries (.json v)) payload)) := by
  show getOwn "id" (spreadInto (ownEntries (.json v)) payload) = none
  rw [getOwn_spreadInto_of_none _ _ _ hp, hv]

theorem idConvention_deleteItem (db : Fields) (resource id : String) (h : IdConvention db) :
    IdConvention ((deleteItem db resource id).persisted db) := by
  cases hp : getProp db resource with
  | undefined | function | objectPrototype =>
    simpa [deleteItem, hp, notFound, Outcome.persisted] using h
  | json v =>
    have hres := getProp_eq_json hp
    cases v with
    | arr items =>
      cases hk : filterNotId (parseInt id) items with
      | error e => simpa [deleteItem, hp, hk, raised, Outcome.persisted] using h
      | ok kept =>
        simp only [deleteItem, hp, hk, Outcome.persisted, Option.getD_some]
        exact idConvention_assignProp _ h
          (uniqueIntIds_of_filterNotId (h _ _ (mem_of_getOwn hres)) hk)
    | null | bool _ | num _ _ | str _ | obj _ =>
      simpa [deleteItem, hp, notFound, Outcome.persisted] using h

theorem idConvention_postResource (nts : Int → Nat → String) (db : Fields)
    (resource : String) (payload : Fields) (h : IdConvention db)
    (hsafe : ∀ items, getOwn resource db = some (.arr items) → SafeIds items)
    (hp : (∃ items, getOwn resource db = some (.arr items)) ∨ getOwn "id" payload = none) :
    IdConvention ((postResource nts db resource payload).persisted db) := by
  cases hg : getProp db resource with
  | undefined => simpa [postResource, hg, notFound, Outcome.persisted] using h
  | function => simpa [postResource, hg, Outcome.persisted] using h
  | objectPrototype =>
    obtain ⟨hn, hk⟩ := getProp_objectPrototype hg
    subst hk
    simpa [postResource, hg, Outcome.persisted, assignProp_proto _ _ hn] using h
  | json v =>
    have hres := getProp_eq_json hg
    have hnoid : ∀ w, v = w → (∀ items, w ≠ .arr items) → getOwn "id" payload = none := by
      intro w hw hne
      rcases hp with ⟨items, hi⟩ | hp
      · rw [hres, hw] at hi
        exact absurd (Option.some.inj hi) (hne items)
      · exact hp
    cases v with
    | arr items =>
      obtain ⟨n, hn, hu⟩ := uniqueIntIds_after_create nts payload
        (h _ _ (mem_of_getOwn hres)) (hsafe items hres)
      simp only [postResource, hg, hn, Outcome.persisted, Option.getD_some]
      exact idConvention_assignProp _ h hu
    | bool _ | num _ _ | str _ => simpa [postResource, hg, Outcome.persisted] using h
    | null =>
      simp only [postResource, hg, Outcome.persisted, Option.getD_some]
      exact idConvention_assignProp _ h
        (followsIdConvention_merge payload (h _ _ (mem_of_getOwn hres))
          (hnoid _ rfl (fun _ e => by cases e)))
    | obj fs =>
      simp only [postResource, hg, Outcome.persisted, Option.getD_some]
      exact idConvention_assignProp _ h
        (followsIdConvention_merge payload (h _ _ (mem_of_getOwn hres))
          (hnoid _ rfl (fun _ e => by cases e)))

theorem idConvention_putItem (db : Fields) (resource id : String) (payload : Fields)
    (h : IdConvention db) (hp : getOwn "id" payload = none) :
    IdConvention ((putItem db resource id payload).persisted db) := by
  have hmerge : ∀ es : Fields, getOwn "id" es = none →
      FollowsIdConvention (.obj (spreadInto es payload)) := by
    intro es hes
    show getOwn "id" (spreadInto es payload) = none
    rw [getOwn_spreadInto_of_none _ _ _ hp, hes]
  cases hg : getProp db resource with
  | undefined => simpa [putItem, hg, notFound, Outcome.persisted] using h
  | function =>
    simp only [putItem, hg, Outcome.persisted, Option.getD_some]
    exact idConvention_assignProp _ h (hmerge _ rfl)
  | objectPrototype =>
    simp only [putItem, hg, Outcome.persisted, Option.getD_some]
    exact idConvention_assignProp _ h (hmerge _ rfl)
  | json v =>
    have hres := getProp_eq_json hg
    have hv := h _ _ (mem_of_getOwn hres)
    cases v with
    | arr items =>
      cases hk : findIndexStrict (parseInt id) items with
      | error e => simpa [putItem, hg, hk, raised, Outcome.persisted] using h
      | ok r =>
        cases r with
        | none => simpa [putItem, hg, hk, notFound, Outcome.persisted] using h
        | some index =>
          obtain ⟨old, hold, -⟩ := findIndexStrict_some hk
          rw [putItem_collection payload hres hk hold]
          simp only [Outcome.persisted, Option.getD_some]
          rw [← assignProp_of_own _ hres]
          exact idConvention_assignProp _ h (uniqueIntIds_after_update payload hv hold hp)
    | null | bool _ | num _ _ | str _ | obj _ =>
      simp only [putItem, hg, Outcome.persisted, Option.getD_some]
      exact idConvention_assignProp _ h (hmerge _ hv)

theorem idConvention_putActiveOrders (db body : Fields) (h : IdConvention db)
    (hp : getOwn "id" body = none) :
    IdConvention ((putActiveOrders db body).persisted db) := by
  simp only [putActiveOrders, Outcome.persisted, Option.getD_some]
  exact idConvention_assignProp _ h hp

/-- The sample document follows the convention on ids. -/
theorem idConvention_twoUsers : IdConvention twoUsers := by
  intro k v hmem
  simp only [twoUsers, List.mem_cons, Prod.mk.injEq, List.not_mem_nil, or_false] at hmem
  rcases hmem with ⟨-, rfl⟩ | ⟨-, rfl⟩
  · exact ⟨[1, 2], .cons ⟨_, rfl, rfl⟩ (.cons ⟨_, rfl, rfl⟩ .nil), by decide⟩
  · rfl

/-- A name that `db[resource]` does not resolve is rejected by the five handlers with 404 and
without saving. -/
theorem unresolved_name_rejected (nts : Int → Nat → String) (db : Fields)
    (resource id : String) (payload : Fields) (h : getProp db resource = .undefined) :
    getResource db resource = notFound "Recurso no encontrado" ∧
    getItem nts db resource id = notFound "Recurso no encontrado" ∧
    postResource nts db resource payload = notFound "Recurso no encontrado" ∧
    putItem db resource id payload = notFound "Recurso no encontrado" ∧
    deleteItem db resource id = notFound "Recurso no encontrado o no es un array" := by
  simp [getResource, getItem, postResource, putItem, deleteItem, h]

/-! ## Claims about `POST /api/:resource` -/

/-- C1 (amended): when `resource` names a collection whose records all carry integer ids
of magnitude below `2 ^ 53`, Create answers with a record whose id is `1` if the collection
is empty and the greatest existing id plus one otherwise, whatever the payload held. -/
theorem create_assigns_next_id (nts : Int → Nat → String) (db : Fields) (resource : String)
    (items : List JSON) (ids : List Int) (payload : Fields)
    (hres : getOwn resource db = some (.arr items))
    (hids : List.Forall₂ HasIntId items ids)
    (hsafe : ∀ n ∈ ids, -9007199254740992 < n ∧ n < 9007199254740992) :
    ∃ created : Fields,
      (postResource nts db resource payload).response = .json 200 (some (.obj created)) ∧
      (ids = [] → getOwn "id" created = some (.int 1)) ∧
      (∀ m ∈ ids, (∀ i ∈ ids, i ≤ m) → getOwn "id" created = some (.int (m + 1))) := by
  obtain ⟨hempty, hmax⟩ := nextId_of_intIds nts hids hsafe
  have hkey : ("id" : String) ≠ "__proto__" ∨ getOwn "id" payload ≠ none := Or.inl (by decide)
  by_cases he : ids = []
  · refine ⟨assignProp payload "id" (JSNum.fin 1 0).toJSON, ?_, ?_, ?_⟩
    · rw [postResource_collection nts payload hres (hempty he)]
    · intro _
      rw [getOwn_assignProp _ _ _ _ hkey, if_pos rfl]; rfl
    · intro m hm
      rw [he] at hm
      exact absurd hm (List.not_mem_nil m)
  · obtain ⟨m0, hm0, hmax0, -⟩ := mathMax_ints ids he
    refine ⟨assignProp payload "id" (JSNum.fin (m0 + 1) 0).toJSON, ?_, ?_, ?_⟩
    · rw [postResource_collection nts payload hres (hmax m0 hm0 hmax0)]
    · intro h; exact absurd h he
    · intro m hm hle
      have : m = m0 := le_antisymm (hmax0 m hm) (hle m0 hm0)
      subst this
      rw [getOwn_assignProp _ _ _ _ hkey, if_pos rfl]; rfl

/-- Instance of C1 on the ids `[1, 3]`, with a payload that brings its own id. -/
theorem create_assigns_next_id_witness :
    ∃ created : Fields,
      (postResource integerText
        [("users", .arr [.obj [("id", .int 1)], .obj [("id", .int 3)]])] "users"
        [("id", .int 2), ("name", .str "Ana")]).response = .json 200 (some (.obj created)) ∧
      (([1, 3] : List Int) = [] → getOwn "id" created = some (.int 1)) ∧
      (∀ m ∈ ([1, 3] : List Int), (∀ i ∈ ([1, 3] : List Int), i ≤ m) →
        getOwn "id" created = some (.int (m + 1))) :=
  create_assigns_next_id integerText
    [("users", .arr [.obj [("id", .int 1)], .obj [("id", .int 3)]])] "users"
    [.obj [("id", .int 1)], .obj [("id", .int 3)]] [1, 3]
    [("id", .int 2), ("name", .str "Ana")] rfl
    (.cons ⟨_, rfl, rfl⟩ (.cons ⟨_, rfl, rfl⟩ .nil))
    (by decide)

/-- C1 as stated fails for the integer id `2 ^ 53`: the sum `2 ^ 53 + 1` is not a double and
is rounded back to `2 ^ 53`, so the new record receives the id that is already there. -/
theorem create_id_past_two_pow_53 :
    HasIntId (.obj [("id", .int 9007199254740992)]) 9007199254740992 ∧
    (postResource integerText [("users", .arr [.obj [("id", .int 9007199254740992)]])]
        "users" []).response
      = .json 200 (some (.obj [("id", .int 9007199254740992)])) ∧
    JSON.int 9007199254740992 ≠ JSON.int (9007199254740992 + 1) :=
  ⟨⟨_, rfl, rfl⟩, rfl, by simp⟩

/-- C2 (amended): when `resource` names a collection and the next id can be computed (no
`TypeError` is raised while the existing ids are read and converted to Numbers), Create saves
the old collection followed by one new element and answers with that element, which is the
payload with its `id` set to the new id and every other field as sent. -/
theorem create_appends_record (nts : Int → Nat → String) (db : Fields) (resource : String)
    (items : List JSON) (n : JSNum) (payload : Fields)
    (hres : getOwn resource db = some (.arr items))
    (hid : nextId nts items = .ok n) :
    ∃ (created db1 : Fields),
      postResource nts db resource payload = ⟨.json 200 (some (.obj created)), some db1⟩ ∧
      getOwn resource db1 = some (.arr (items ++ [.obj created])) ∧
      getOwn "id" created = some n.toJSON ∧
      (∀ k, k ≠ "id" → getOwn k created = getOwn k payload) := by
  have hkey : ("id" : String) ≠ "__proto__" ∨ getOwn "id" payload ≠ none := Or.inl (by decide)
  refine ⟨assignProp payload "id" n.toJSON, _, postResource_collection nts payload hres hid,
    ?_, ?_, ?_⟩
  · rw [getOwn_replaceProp _ _ _ _ (by simp [hres]), if_pos rfl]
  · rw [getOwn_assignProp _ _ _ _ hkey, if_pos rfl]
  · intro k hk
    exact getOwn_assignProp_of_ne _ _ _ _ hk

/-- Instance of C2 on a collection with one record. -/
theorem create_appends_record_witness :
    ∃ (created db1 : Fields),
      postResource integerText [("users", .arr [.obj [("id", .int 1)]])] "users"
          [("name", .str "Ana")]
        = ⟨.json 200 (some (.obj created)), some db1⟩ ∧
      getOwn "users" db1 = some (.arr ([.obj [("id", .int 1)]] ++ [.obj created])) ∧
      getOwn "id" created = some (JSNum.fin 2 0).toJSON ∧
      (∀ k, k ≠ "id" → getOwn k created = getOwn k [("name", .str "Ana")]) :=
  create_appends_record integerText [("users", .arr [.obj [("id", .int 1)]])] "users"
    [.obj [("id", .int 1)]] (.fin 2 0) [("name", .str "Ana")] rfl rfl

/-- C2 as stated fails when an existing id is an object with an own property `toString`:
`Math.max` cannot convert it, the handler raises, and nothing is appended or saved. -/
theorem create_raises_on_unconvertible_id :
    postResource integerText
        [("users", .arr [.obj [("id", .obj [("toString", .int 1)])]])] "users"
        [("name", .str "Ana")]
      = ⟨.uncaught, none⟩ := rfl

/-! ## Claims about `PUT /api/:resource/:id` -/

/-- C3: when `resource` names a collection of records and some record has the parsed id,
Update replaces the first such record by the merge of that record and the payload: every
field of the payload has the value of the payload, every other field has the value of the old
record, and there is no further field; the merged record is answered and is what the saved
collection holds at that index, the rest of the saved document being as loaded. The payload
is an object, so its field names are distinct. -/
theorem update_merges_record (db : Fields) (resource idParam : String) (items : List JSON)
    (payload : Fields)
    (hres : getOwn resource db = some (.arr items))
    (hrec : ∀ item ∈ items, ∃ fs, item = .obj fs)
    (hmatch : ∃ fs, .obj fs ∈ items ∧
      strictEqNumber (getOwn "id" fs) (parseInt idParam) = true)
    (hpayload : (payload.map Prod.fst).Nodup) :
    ∃ (index : Nat) (old merged db1 : Fields),
      items[index]? = some (.obj old) ∧
      strictEqNumber (getOwn "id" old) (parseInt idParam) = true ∧
      (∀ j, j < index → ∀ fs, items[j]? = some (.obj fs) →
        strictEqNumber (getOwn "id" fs) (parseInt idParam) = false) ∧
      (∀ k v, getOwn k payload = some v → getOwn k merged = some v) ∧
      (∀ k, getOwn k payload = none → getOwn k merged = getOwn k old) ∧
      (∀ k, getOwn k merged ≠ none → getOwn k payload ≠ none ∨ getOwn k old ≠ none) ∧
      putItem db resource idParam payload = ⟨.json 200 (some (.obj merged)), some db1⟩ ∧
      getOwn resource db1 = some (.arr (items.set index (.obj merged))) ∧
      (∀ k, k ≠ resource → getOwn k db1 = getOwn k db) := by
  obtain ⟨index, hfind, hfirst⟩ := findIndexStrict_of_records hrec hmatch
  obtain ⟨old, hold, hid⟩ := findIndexStrict_some hfind
  refine ⟨index, old, spreadInto old payload, _, hold, hid, hfirst, ?_, ?_, ?_,
    putItem_collection payload hres hfind hold, ?_, ?_⟩
  · intro k v hk
    exact getOwn_spreadInto_of_some k v payload old hpayload hk
  · intro k hk
    exact getOwn_spreadInto_of_none k payload old hk
  · intro k hk
    cases hp : getOwn k payload with
    | some v => exact Or.inl (by simp)
    | none =>
      rw [getOwn_spreadInto_of_none k payload old hp] at hk
      exact Or.inr hk
  · rw [getOwn_replaceProp _ _ _ _ (by simp [hres]), if_pos rfl]
  · intro k hk
    rw [getOwn_replaceProp _ _ _ _ (by simp [hres]), if_neg hk]

/-- Instance of C3: renaming the user with id `1`. -/
theorem update_merges_record_witness :
    ∃ (index : Nat) (old merged db1 : Fields),
      ([JSON.obj [("id", .int 1), ("name", .str "Ana"), ("role", .str "mesero")]])[index]?
        = some (.obj old) ∧
      strictEqNumber (getOwn "id" old) (parseInt "1") = true ∧
      (∀ j, j < index → ∀ fs,
        ([JSON.obj [("id", .int 1), ("name", .str "Ana"), ("role", .str "mesero")]])[j]?
          = some (.obj fs) →
        strictEqNumber (getOwn "id" fs) (parseInt "1") = false) ∧
      (∀ k v, getOwn k [("name", JSON.str "Eva")] = some v → getOwn k merged = some v) ∧
      (∀ k, getOwn k [("name", JSON.str "Eva")] = none → getOwn k merged = getOwn k old) ∧
      (∀ k, getOwn k merged ≠ none →
        getOwn k [("name", JSON.str "Eva")] ≠ none ∨ getOwn k old ≠ none) ∧
      putItem [("users", .arr [.obj [("id", .int 1), ("name", .str "Ana"),
          ("role", .str "mesero")]])] "users" "1" [("name", .str "Eva")]
        = ⟨.json 200 (some (.obj merged)), some db1⟩ ∧
      getOwn "users" db1 = some (.arr
        ([JSON.obj [("id", .int 1), ("name", .str "Ana"), ("role", .str "mesero")]].set index
          (.obj merged))) ∧
      (∀ k, k ≠ "users" → getOwn k db1
        = getOwn k [("users", .arr [.obj [("id", .int 1), ("name", .str "Ana"),
            ("role", .str "mesero")]])]) :=
  update_merges_record
    [("users", .arr [.obj [("id", .int 1), ("name", .str "Ana"), ("role", .str "mesero")]])]
    "users" "1" [.obj [("id", .int 1), ("name", .str "Ana"), ("role", .str "mesero")]]
    [("name", .str "Eva")] rfl
    (by
      intro item hi
      rw [List.mem_singleton] at hi
      exact ⟨_, hi⟩)
    ⟨_, List.mem_singleton.mpr rfl, rfl⟩ (by decide)

/-- C4: when `resource` names a collection of records and some record has the parsed id,
Update with the empty payload answers with the first such record as it was and saves the
document as it was loaded. -/
theorem update_with_empty_payload (db : Fields) (resource idParam : String)
    (items : List JSON)
    (hres : getOwn resource db = some (.arr items))
    (hrec : ∀ item ∈ items, ∃ fs, item = .obj fs)
    (hmatch : ∃ fs, .obj fs ∈ items ∧
      strictEqNumber (getOwn "id" fs) (parseInt idParam) = true) :
    ∃ (index : Nat) (old : Fields),
      items[index]? = some (.obj old) ∧
      strictEqNumber (getOwn "id" old) (parseInt idParam) = true ∧
      putItem db resource idParam [] = ⟨.json 200 (some (.obj old)), some db⟩ := by
  obtain ⟨index, hfind, -⟩ := findIndexStrict_of_records hrec hmatch
  obtain ⟨old, hold, hid⟩ := findIndexStrict_some hfind
  refine ⟨index, old, hold, hid, ?_⟩
  rw [putItem_collection [] hres hfind hold]
  have h1 : spreadInto old [] = old := rfl
  rw [h1, set_of_getElem? hold, replaceProp_self _ _ _ hres]

/-- Instance of C4 on the second of the two sample users. -/
theorem update_with_empty_payload_witness :
    ∃ (index : Nat) (old : Fields),
      ([JSON.obj [("id", .int 1)], JSON.obj [("id", .int 2)]])[index]? = some (.obj old) ∧
      strictEqNumber (getOwn "id" old) (parseInt "2") = true ∧
      putItem twoUsers "users" "2" [] = ⟨.json 200 (some (.obj old)), some twoUsers⟩ :=
  update_with_empty_payload twoUsers "users" "2"
    [.obj [("id", .int 1)], .obj [("id", .int 2)]] rfl
    (by
      intro item hi
      simp only [List.mem_cons, List.mem_singleton, List.not_mem_nil, or_false] at hi
      rcases hi with rfl | rfl <;> exact ⟨_, rfl⟩)
    ⟨[("id", .int 2)], by simp, rfl⟩

/-! ## Claims about `DELETE /api/:resource/:id` -/

/-- C5 (amended): when the records of the collection all carry a number as id and the id
parameter is a decimal integer text (an optional minus sign and digits), Delete followed by
Get with the same parameter on the saved document answers 404 `Item no encontrado`. -/
theorem delete_then_get_not_found (nts : Int → Nat → String) (db : Fields)
    (resource idParam : String) (items : List JSON)
    (hres : getOwn resource db = some (.arr items))
    (hids : ∀ item ∈ items, HasNumberId item)
    (hid : IsDecimalInteger idParam) :
    getItem nts ((deleteItem db resource idParam).persisted db) resource idParam
      = notFound "Item no encontrado" := by
  obtain ⟨kept, hk⟩ := filterNotId_total (parseInt idParam) items
    (fun item hi => by
      obtain ⟨m, e, h⟩ := getId_of_numberId (hids item hi)
      exact ⟨_, h⟩)
  obtain ⟨hsub, hall, -⟩ := filterNotId_ok hk
  rw [deleteItem_collection hres hk]
  simp only [Outcome.persisted, Option.getD_some]
  have hres1 : getOwn resource (replaceProp resource (.arr kept) db) = some (.arr kept) :=
    getOwn_replaceProp_self _ _ _ _ hres
  have hnone : findLoose nts idParam kept = .ok none := by
    apply findLoose_of_no_match
    intro item hi
    obtain ⟨m, e, hme⟩ := getId_of_numberId (hids item (hsub.subset hi))
    obtain ⟨v, hv, hs⟩ := hall item hi
    rw [hme] at hv
    cases hv
    refine ⟨_, hme, ?_⟩
    simp only [looseEqString, stringToNumber_eq_parseInt hid]
    simpa [strictEqNumber] using hs
  simp only [getItem, getProp_of_own hres1, hnone]

/-- Instance of C5: deleting and then fetching the user with id `2`. -/
theorem delete_then_get_not_found_witness :
    getItem integerText
        ((deleteItem [("users", .arr [.obj [("id", .int 1)], .obj [("id", .int 2)]])]
          "users" "2").persisted
          [("users", .arr [.obj [("id", .int 1)], .obj [("id", .int 2)]])])
        "users" "2"
      = notFound "Item no encontrado" :=
  delete_then_get_not_found integerText
    [("users", .arr [.obj [("id", .int 1)], .obj [("id", .int 2)]])] "users" "2"
    [.obj [("id", .int 1)], .obj [("id", .int 2)]] rfl
    (by
      intro item hi
      simp only [List.mem_cons, List.mem_singleton, List.not_mem_nil, or_false] at hi
      rcases hi with rfl | rfl <;> exact ⟨_, _, _, rfl, rfl⟩)
    ⟨['2'], by decide, by decide, Or.inl rfl⟩

/-- C5 as stated fails for the parameter `1e1`: `parseInt` reads `1`, so Delete keeps the
record with id `10`, while `10 == "1e1"` holds and Get finds that record. -/
theorem delete_then_get_finds_record :
    getItem integerText
        ((deleteItem [("users", .arr [.obj [("id", .int 10)]])] "users" "1e1").persisted
          [("users", .arr [.obj [("id", .int 10)]])])
        "users" "1e1"
      = ⟨.json 200 (some (.obj [("id", .int 10)])), none⟩ := rfl

/-- C6: when no record of the collection has the parsed id, Delete saves the document as it
was loaded and still answers with the success acknowledgement; and deleting a second time
with the same parameter persists the same document as deleting once. -/
theorem delete_absent_id (db : Fields) (resource idParam : String) (items : List JSON)
    (hres : getOwn resource db = some (.arr items))
    (habsent : ∀ item ∈ items, ∃ fs, item = .obj fs ∧
      strictEqNumber (getOwn "id" fs) (parseInt idParam) = false) :
    deleteItem db resource idParam =
      ⟨.json 200 (some (.obj [("success", .bool true), ("message", .str "Item eliminado")])),
        some db⟩ ∧
    (deleteItem ((deleteItem db resource idParam).persisted db) resource idParam).persisted
        ((deleteItem db resource idParam).persisted db)
      = (deleteItem db resource idParam).persisted db := by
  refine ⟨?_, deleteItem_idempotent db resource idParam⟩
  have hk : filterNotId (parseInt idParam) items = .ok items := by
    apply filterNotId_of_no_match
    intro item hi
    obtain ⟨fs, rfl, hs⟩ := habsent item hi
    exact ⟨_, rfl, hs⟩
  rw [deleteItem_collection hres hk, replaceProp_self _ _ _ hres]

/-- Instance of C6: deleting the id `2` from the users with ids `1` and `3`. -/
theorem delete_absent_id_witness :
    deleteItem [("users", .arr [.obj [("id", .int 1)], .obj [("id", .int 3)]])] "users" "2" =
      ⟨.json 200 (some (.obj [("success", .bool true), ("message", .str "Item eliminado")])),
        some [("users", .arr [.obj [("id", .int 1)], .obj [("id", .int 3)]])]⟩ ∧
    (deleteItem ((deleteItem [("users", .arr [.obj [("id", .int 1)], .obj [("id", .int 3)]])]
          "users" "2").persisted
          [("users", .arr [.obj [("id", .int 1)], .obj [("id", .int 3)]])]) "users" "2").persisted
        ((deleteItem [("users", .arr [.obj [("id", .int 1)], .obj [("id", .int 3)]])]
          "users" "2").persisted
          [("users", .arr [.obj [("id", .int 1)], .obj [("id", .int 3)]])])
      = (deleteItem [("users", .arr [.obj [("id", .int 1)], .obj [("id", .int 3)]])]
          "users" "2").persisted
          [("users", .arr [.obj [("id", .int 1)], .obj [("id", .int 3)]])] :=
  delete_absent_id [("users", .arr [.obj [("id", .int 1)], .obj [("id", .int 3)]])] "users" "2"
    [.obj [("id", .int 1)], .obj [("id", .int 3)]] rfl
    (by
      intro item hi
      simp only [List.mem_cons, List.mem_singleton, List.not_mem_nil, or_false] at hi
      rcases hi with rfl | rfl <;> exact ⟨_, rfl, rfl⟩)

/-! ## Claims about every handler -/

/-- C7 (defect): the name `constructor` is absent from the default document, yet
`db[resource]` resolves it through `Object.prototype`, so List and Get answer 200 with an
empty body, Create answers 200 with the payload, and Update answers 200 and saves a document
with a new resource of that name. -/
theorem inherited_name_not_rejected :
    getOwn "constructor" defaultDocument = none ∧
    getResource defaultDocument "constructor" = ⟨.json 200 none, none⟩ ∧
    getItem integerText defaultDocument "constructor" "1" = ⟨.json 200 none, none⟩ ∧
    postResource integerText defaultDocument "constructor" [("name", .str "Ana")]
      = ⟨.json 200 (some (.obj [("name", .str "Ana")])), some defaultDocument⟩ ∧
    putItem defaultDocument "constructor" "1" [("name", .str "Ana")]
      = ⟨.json 200 (some (.obj [("name", .str "Ana")])),
          some (defaultDocument ++ [("constructor", .obj [("name", .str "Ana")])])⟩ :=
  ⟨rfl, rfl, rfl, rfl, rfl⟩

/-- C8: ReplaceSingleton answers with the payload and saves a document whose `activeOrders`
is exactly the payload, nothing of the previous value being kept, and whose other resources
are those of the loaded document. -/
theorem replace_singleton (db body : Fields) :
    ∃ db1 : Fields,
      putActiveOrders db body = ⟨.json 200 (some (.obj body)), some db1⟩ ∧
      getOwn "activeOrders" db1 = some (.obj body) ∧
      (∀ k, k ≠ "activeOrders" → getOwn k db1 = getOwn k db) := by
  refine ⟨assignProp db "activeOrders" (.obj body), rfl, ?_, ?_⟩
  · rw [getOwn_assignProp _ _ _ _ (Or.inl (by decide)), if_pos rfl]
  · intro k hk
    exact getOwn_assignProp_of_ne _ _ _ _ hk

/-- C9 (amended): List, Get, Create and Delete leave the resource names of the persisted
document as they were; so does Update on a name that is not an `Object.prototype` method
missing from the document; ReplaceSingleton leaves them as they were when `activeOrders` is
present and otherwise adds that one name at the end. -/
theorem resource_names_preserved (nts : Int → Nat → String) (db : Fields)
    (resource id : String) (payload : Fields) :
    resourceNames ((getResource db resource).persisted db) = resourceNames db ∧
    resourceNames ((getItem nts db resource id).persisted db) = resourceNames db ∧
    resourceNames ((postResource nts db resource payload).persisted db) = resourceNames db ∧
    resourceNames ((deleteItem db resource id).persisted db) = resourceNames db ∧
    (getOwn resource db ≠ none ∨ resource ∉ objectPrototypeMethods →
      resourceNames ((putItem db resource id payload).persisted db) = resourceNames db) ∧
    resourceNames ((putActiveOrders db payload).persisted db)
      = (if hasKey "activeOrders" db then resourceNames db
        else resourceNames db ++ ["activeOrders"]) := by
  refine ⟨?_, ?_, names_postResource nts db resource payload, names_deleteItem db resource id,
    names_putItem db resource id payload, names_putActiveOrders db payload⟩
  · have : (getResource db resource).saved = none := by
      unfold getResource; split <;> rfl
    simp [Outcome.persisted, this]
  · have : (getItem nts db resource id).saved = none := by
      unfold getItem
      split
      · rfl
      · split <;> rfl
      · rfl
    simp [Outcome.persisted, this]

/-- Instance of C9 for Update on a resource of the document. -/
theorem resource_names_preserved_witness :
    resourceNames ((putItem twoUsers "users" "1" [("name", .str "Ana")]).persisted twoUsers)
      = resourceNames twoUsers :=
  (resource_names_preserved integerText twoUsers "users" "1"
    [("name", .str "Ana")]).2.2.2.2.1 (Or.inl (by simp [twoUsers, getOwn]))

/-- C9 as stated fails for ReplaceSingleton on a document without `activeOrders`: the
assignment `db.activeOrders = req.body` creates the resource. -/
theorem replace_singleton_adds_resource :
    resourceNames [("users", .arr [])] = ["users"] ∧
    resourceNames ((putActiveOrders [("users", .arr [])] []).persisted [("users", .arr [])])
      = ["users", "activeOrders"] :=
  ⟨rfl, rfl⟩

/-! ## Claims about the convention on ids -/

/-- C10 (amended): if the loaded document follows the convention on ids, so does the
persisted document after any Delete; after a Create on a collection whose ids are below
`2 ^ 53` in magnitude, whatever the payload, and after a Create on another resource with a
payload without `id`; and after an Update or a ReplaceSingleton whose payload has no `id`. -/
theorem id_convention_preserved (nts : Int → Nat → String) (db : Fields)
    (resource id : String) (payload : Fields) (hdb : IdConvention db) :
    IdConvention ((deleteItem db resource id).persisted db) ∧
    ((∀ items, getOwn resource db = some (.arr items) → SafeIds items) →
      ((∃ items, getOwn resource db = some (.arr items)) ∨ getOwn "id" payload = none) →
      IdConvention ((postResource nts db resource payload).persisted db)) ∧
    (getOwn "id" payload = none →
      IdConvention ((putItem db resource id payload).persisted db)) ∧
    (getOwn "id" payload = none →
      IdConvention ((putActiveOrders db payload).persisted db)) :=
  ⟨idConvention_deleteItem db resource id hdb,
    idConvention_postResource nts db resource payload hdb,
    idConvention_putItem db resource id payload hdb,
    idConvention_putActiveOrders db payload hdb⟩

/-- Instance of C10: one Delete, one Create with a payload that brings an id, one Update and
one ReplaceSingleton with a payload without id, on the two sample users. -/
theorem id_convention_preserved_witness :
    IdConvention ((deleteItem twoUsers "users" "1").persisted twoUsers) ∧
    IdConvention ((postResource integerText twoUsers "users"
      [("id", .int 1), ("name", .str "Ana")]).persisted twoUsers) ∧
    IdConvention ((putItem twoUsers "users" "1" [("name", .str "Ana")]).persisted twoUsers) ∧
    IdConvention ((putActiveOrders twoUsers [("mesa", .int 4)]).persisted twoUsers) :=
  ⟨(id_convention_preserved integerText twoUsers "users" "1"
      [("id", .int 1), ("name", .str "Ana")] idConvention_twoUsers).1,
    (id_convention_preserved integerText twoUsers "users" "1"
      [("id", .int 1), ("name", .str "Ana")] idConvention_twoUsers).2.1
      (by
        intro items hi item hmem n hn
        have : items = [.obj [("id", .int 1)], .obj [("id", .int 2)]] := by
          simpa [twoUsers, getOwn] using hi.symm
        subst this
        simp only [List.mem_cons, List.mem_singleton, List.not_mem_nil, or_false] at hmem
        rcases hmem with rfl | rfl
        · rw [hasIntId_unique hn ⟨_, rfl, rfl⟩]; decide
        · rw [hasIntId_unique hn ⟨_, rfl, rfl⟩]; decide)
      (Or.inl ⟨_, rfl⟩),
    (id_convention_preserved integerText twoUsers "users" "1"
      [("name", .str "Ana")] idConvention_twoUsers).2.2.1 rfl,
    (id_convention_preserved integerText twoUsers "users" "1"
      [("mesa", .int 4)] idConvention_twoUsers).2.2.2 rfl⟩

/-- C10 as stated fails for an Update whose payload carries an id: the spread overwrites
the id of the record, here with the id of the other record. -/
theorem update_can_duplicate_id :
    IdConvention twoUsers ∧
    (putItem twoUsers "users" "1" [("id", .int 2)]).persisted twoUsers
      = [("users", .arr [.obj [("id", .int 2)], .obj [("id", .int 2)]]),
          ("activeOrders", .obj [])] ∧
    ¬ IdConvention ((putItem twoUsers "users" "1" [("id", .int 2)]).persisted twoUsers) := by
  refine ⟨idConvention_twoUsers, rfl, ?_⟩
  intro h
  have hu : UniqueIntIds [.obj [("id", .int 2)], .obj [("id", .int 2)]] :=
    h "users" _ (List.mem_cons_self _ _)
  obtain ⟨ids, hids, hnd⟩ := hu
  cases hids with
  | cons h1 hrest =>
    cases hrest with
    | cons h2 hnil =>
      cases hnil
      have e1 := hasIntId_unique h1 ⟨_, rfl, rfl⟩
      have e2 := hasIntId_unique h2 ⟨_, rfl, rfl⟩
      subst e1 e2
      simp at hnd

/-! ## Lemmas: what the writing handlers save -/

/-- What Create hands to `saveDB`: nothing, the loaded document, or the loaded document with
an assignment to the resource. -/
theorem postResource_saved (nts : Int → Nat → String) (db : Fields) (resource : String)
    (payload : Fields) :
    (postResource nts db resource payload).persisted db = db ∨
    ∃ v, (postResource nts db resource payload).persisted db = assignProp db resource v := by
  unfold postResource
  split
  · exact Or.inl rfl
  · split
    · exact Or.inl rfl
    · exact Or.inr ⟨_, rfl⟩
  · exact Or.inl rfl
  · exact Or.inl rfl
  · exact Or.inl rfl
  · exact Or.inl rfl
  · exact Or.inr ⟨_, rfl⟩

theorem putItem_saved (db : Fields) (resource id : String) (payload : Fields) :
    (putItem db resource id payload).persisted db = db ∨
    ∃ v, (putItem db resource id payload).persisted db = assignProp db resource v := by
  unfold putItem
  simp only
  split
  · exact Or.inl rfl
  · split
    · exact Or.inl rfl
    · exact Or.inr ⟨_, rfl⟩
    · exact Or.inl rfl
  · exact Or.inr ⟨_, rfl⟩

theorem deleteItem_saved (db : Fields) (resource id : String) :
    (deleteItem db resource id).persisted db = db ∨
    ∃ v, (deleteItem db resource id).persisted db = assignProp db resource v := by
  unfold deleteItem
  simp only
  split
  · split
    · exact Or.inl rfl
    · exact Or.inr ⟨_, rfl⟩
  · exact Or.inl rfl

theorem getOwn_of_saved {db db1 : Fields} {resource k : String}
    (h : db1 = db ∨ ∃ v, db1 = assignProp db resource v) (hk : k ≠ resource) :
    getOwn k db1 = getOwn k db := by
  rcases h with h | ⟨v, h⟩
  · rw [h]
  · rw [h, getOwn_assignProp_of_ne _ _ _ _ hk]

theorem findIndexStrict_of_no_match {n : JSNum} {items : List JSON}
    (h : ∀ item ∈ items, ∃ fs, item = .obj fs ∧ strictEqNumber (getOwn "id" fs) n = false) :
    findIndexStrict n items = .ok none := by
  induction items with
  | nil => rfl
  | cons item rest ih =>
    obtain ⟨fs, rfl, hs⟩ := h _ (List.mem_cons_self _ _)
    have hr := ih (fun x hx => h x (List.mem_cons_of_mem _ hx))
    simp [findIndexStrict, getId, bind, Except.bind, hs, hr, pure, Except.pure]

/-- The first index found by `findIndex` is the first record with the id. -/
theorem findIndexStrict_first {n : JSNum} {items : List JSON} {i : Nat}
    (h : findIndexStrict n items = .ok (some i)) :
    ∀ j, j < i → ∀ fs, items[j]? = some (.obj fs) →
      strictEqNumber (getOwn "id" fs) n = false := by
  induction items generalizing i with
  | nil => simp [findIndexStrict] at h
  | cons item rest ih =>
    intro j hj fs hfs
    cases hv : getId item with
    | error e => simp [findIndexStrict, hv, bind, Except.bind] at h
    | ok v =>
      by_cases hs : strictEqNumber v n = true
      · have : i = 0 := by
          simp [findIndexStrict, hv, bind, Except.bind, hs, pure, Except.pure] at h
          exact h.symm
        omega
      · have hs' : strictEqNumber v n = false := by simpa using hs
        cases hr : findIndexStrict n rest with
        | error e => simp [findIndexStrict, hv, bind, Except.bind, hs', hr] at h
        | ok r =>
          cases r with
          | none => simp [findIndexStrict, hv, bind, Except.bind, hs', hr, pure, Except.pure] at h
          | some i' =>
            have hi : i = i' + 1 := by
              simp [findIndexStrict, hv, bind, Except.bind, hs', hr, pure, Except.pure] at h
              exact h.symm
            cases j with
            | zero =>
              have : item = .obj fs := by simpa using hfs
              subst this
              have hv' : v = getOwn "id" fs := by simpa [getId] using hv.symm
              rw [← hv']
              exact hs'
            | succ j' => exact ih hr j' (by omega) fs (by simpa using hfs)

/-! ## Lemmas: integers that are doubles -/

theorem bitLen_zero (fuel : Nat) : bitLen fuel 0 = 0 := by
  cases fuel <;> simp [bitLen]

/-- With enough fuel `bitLen` is the number of binary digits. -/
theorem bitLen_bounds (fuel n : Nat) (hle : n ≤ fuel) (hn : n ≠ 0) :
    1 ≤ bitLen fuel n ∧ 2 ^ (bitLen fuel n - 1) ≤ n ∧ n < 2 ^ bitLen fuel n := by
  induction fuel generalizing n with
  | zero => omega
  | succ fuel ih =>
    simp only [bitLen, if_neg hn]
    by_cases h2 : n / 2 = 0
    · have h1 : n = 1 := by omega
      subst h1
      simp [bitLen_zero]
    · obtain ⟨hb, hlo, hhi⟩ := ih (n / 2) (by omega) h2
      refine ⟨by omega, ?_, ?_⟩
      · have e : 1 + bitLen fuel (n / 2) - 1 = (bitLen fuel (n / 2) - 1) + 1 := by omega
        rw [e, Nat.pow_succ]
        omega
      · have e : 1 + bitLen fuel (n / 2) = bitLen fuel (n / 2) + 1 := by omega
        rw [e, Nat.pow_succ]
        omega

theorem reduce_mul_pow (m : Int) (k : Nat) : JSNum.reduce (m * 2 ^ k) k = .fin m 0 := by
  induction k with
  | zero => simp [JSNum.reduce]
  | succ k ih =>
    have h1 : (m * 2 ^ (k + 1)) % 2 = 0 := by
      rw [pow_succ, ← mul_assoc]
      exact Int.mul_emod_left _ _
    have h2 : (m * 2 ^ (k + 1)) / 2 = m * 2 ^ k := by
      rw [pow_succ, ← mul_assoc]
      exact Int.mul_ediv_cancel _ (by decide)
    simp only [JSNum.reduce, h1, if_true, h2, ih]

theorem divHalfEven_one (p : Nat) : divHalfEven p 1 = p := by
  simp [divHalfEven, Nat.mod_one]

/-- Integers up to `2 ^ 53` in magnitude are doubles: rounding leaves them as they are. -/
theorem roundDouble_small (neg : Bool) (p : Nat) (hp : p ≤ 9007199254740992) :
    roundDouble neg p 1 = .fin (if neg then -(p : Int) else (p : Int)) 0 := by
  by_cases h0 : p = 0
  · subst h0
    cases neg <;> rfl
  · obtain ⟨hb, hlo, hhi⟩ := bitLen_bounds p p (le_refl p) h0
    have hone : bitLen 1 1 = 1 := rfl
    have hb54 : bitLen p p ≤ 54 := by
      by_contra hcon
      have h55 : 54 ≤ bitLen p p - 1 := by omega
      have : (2 : Nat) ^ 54 ≤ 2 ^ (bitLen p p - 1) := Nat.pow_le_pow_right (by decide) h55
      have e54 : (2 : Nat) ^ 54 = 18014398509481984 := by norm_num
      omega
    generalize hbdef : bitLen p p = b at hb hlo hhi hb54
    have hcond : (if (0 : Int) ≤ (b : Int) - ((1 : Nat) : Int)
        then 1 * 2 ^ ((b : Int) - ((1 : Nat) : Int)).toNat ≤ p
        else 1 ≤ p * 2 ^ (-((b : Int) - ((1 : Nat) : Int))).toNat) := by
      have hnn : (0 : Int) ≤ (b : Int) - ((1 : Nat) : Int) := by omega
      rw [if_pos hnn]
      have : ((b : Int) - ((1 : Nat) : Int)).toNat = b - 1 := by omega
      rw [this]
      simpa using hlo
    unfold roundDouble
    simp only [if_neg h0, hbdef, hone, if_pos hcond]
    have hmax : max ((b : Int) - ((1 : Nat) : Int)) (-1022) = (b : Int) - 1 := by
      simp only [Nat.cast_one]
      omega
    rw [hmax]
    by_cases hs : (0 : Int) ≤ (b : Int) - 1 - 52
    · rw [if_pos hs]
      have hb' : b = 53 ∨ b = 54 := by omega
      rcases hb' with hb' | hb'
      · subst hb'
        have ht : ((53 : Nat) : Int) - 1 - 52 = 0 := by norm_num
        simp only [ht, Int.toNat_zero, pow_zero, mul_one, divHalfEven_one, Nat.add_zero]
        have hlen : ¬ 1025 ≤ bitLen p p := by omega
        rw [if_neg hlen]
        cases neg <;> simp
      · subst hb'
        have hp2 : p = 9007199254740992 := by
          have e53 : (2 : Nat) ^ (54 - 1) = 9007199254740992 := by norm_num
          omega
        subst hp2
        cases neg <;> rfl
    · rw [if_neg hs]
      have hk : (-((b : Int) - 1 - 52)).toNat = 53 - b := by omega
      rw [hk, divHalfEven_one]
      have hcast : (((p * 2 ^ (53 - b) : Nat)) : Int) = (p : Int) * 2 ^ (53 - b) := by
        push_cast; ring
      cases neg with
      | true =>
        have : ((if true = true then (-1 : Int) else 1) * ((p * 2 ^ (53 - b) : Nat) : Int))
            = (-(p : Int)) * 2 ^ (53 - b) := by
          rw [hcast]; simp
        rw [this, reduce_mul_pow]
        simp
      | false =>
        have : ((if false = true then (-1 : Int) else 1) * ((p * 2 ^ (53 - b) : Nat) : Int))
            = (p : Int) * 2 ^ (53 - b) := by
          rw [hcast]; simp
        rw [this, reduce_mul_pow]
        simp

theorem isDecimalInteger_of_text {s : String} {n : Int} (h : DecimalTextOf s n) :
    IsDecimalInteger s := by
  obtain ⟨ds, hne, hd, hs | hs⟩ := h
  · exact ⟨ds, hne, hd, Or.inl hs.1⟩
  · exact ⟨ds, hne, hd, Or.inr hs.1⟩

/-- Both `parseInt` and the conversion to a Number read a decimal text of an integer of
magnitude at most `2 ^ 53` as that integer. -/
theorem parse_decimalText {s : String} {n : Int} (h : DecimalTextOf s n)
    (hn : -9007199254740992 ≤ n ∧ n ≤ 9007199254740992) :
    parseInt s = .fin n 0 ∧ stringToNumber s = .fin n 0 := by
  obtain ⟨ds, hne, hd, ⟨hs, hval⟩ | ⟨hs, hval⟩⟩ := h
  · have hp : natOfDigits ds ≤ 9007199254740992 := by omega
    have hr := roundDouble_small false (natOfDigits ds) hp
    simp only [Bool.false_eq_true, if_false] at hr
    rw [parseInt_signed_digits false hd hne s (by simpa using hs),
      stringToNumber_signed_digits false hd hne s (by simpa using hs), hr, hval]
    exact ⟨rfl, rfl⟩
  · have hp : natOfDigits ds ≤ 9007199254740992 := by omega
    have hr := roundDouble_small true (natOfDigits ds) hp
    simp only [if_true] at hr
    rw [parseInt_signed_digits true hd hne s (by simpa using hs),
      stringToNumber_signed_digits true hd hne s (by simpa using hs), hr, hval]
    exact ⟨rfl, rfl⟩

theorem digitChar_digit (k : Nat) (hk : k < 10) :
    (Nat.digitChar k).isDigit = true ∧ (Nat.digitChar k).toNat - 48 = k := by
  interval_cases k <;> exact ⟨by decide, by decide⟩

theorem natOfDigits_append_one (pre : List Char) (d : Char) :
    natOfDigits (pre ++ [d]) = 10 * natOfDigits pre + (d.toNat - 48) := by
  simp [natOfDigits, List.foldl_append]

theorem toDigitsCore_spec (fuel n : Nat) (ds : List Char) (h : n < fuel) :
    ∃ pre : List Char, Nat.toDigitsCore 10 fuel n ds = pre ++ ds ∧ pre ≠ [] ∧
      (∀ c ∈ pre, c.isDigit = true) ∧ natOfDigits pre = n := by
  induction fuel generalizing n ds with
  | zero => omega
  | succ fuel ih =>
    obtain ⟨hdig, hval⟩ := digitChar_digit (n % 10) (Nat.mod_lt _ (by decide))
    simp only [Nat.toDigitsCore]
    by_cases h0 : n / 10 = 0
    · rw [if_pos h0]
      refine ⟨[Nat.digitChar (n % 10)], rfl, by simp, ?_, ?_⟩
      · intro c hc
        rw [List.mem_singleton] at hc
        rw [hc]; exact hdig
      · have := natOfDigits_append_one [] (Nat.digitChar (n % 10))
        simp only [List.nil_append] at this
        rw [this, hval]
        simp [natOfDigits]
        omega
    · rw [if_neg h0]
      obtain ⟨pre, hpre, -, hall, hn⟩ := ih (n / 10) (Nat.digitChar (n % 10) :: ds) (by omega)
      refine ⟨pre ++ [Nat.digitChar (n % 10)], ?_, by simp, ?_, ?_⟩
      · rw [hpre]; simp
      · intro c hc
        rcases List.mem_append.mp hc with hc | hc
        · exact hall c hc
        · rw [List.mem_singleton] at hc
          rw [hc]; exact hdig
      · rw [natOfDigits_append_one, hn, hval]
        omega

theorem toString_nat_digits (m : Nat) :
    (toString m).toList ≠ [] ∧ (∀ c ∈ (toString m).toList, c.isDigit = true) ∧
      natOfDigits (toString m).toList = m := by
  obtain ⟨pre, hpre, hne, hall, hn⟩ := toDigitsCore_spec (m + 1) m [] (by omega)
  have : (toString m).toList = pre := by
    show (Nat.repr m).toList = pre
    simp only [Nat.repr, Nat.toDigits, hpre, List.append_nil]
    rfl
  rw [this]
  exact ⟨hne, hall, hn⟩

/-- The canonical decimal text of an integer denotes that integer. -/
theorem decimalTextOf_toString (n : Int) : DecimalTextOf (toString n) n := by
  cases n with
  | ofNat m =>
    obtain ⟨hne, hall, hn⟩ := toString_nat_digits m
    exact ⟨(toString m).toList, hne, hall, Or.inl ⟨rfl, by rw [hn]; rfl⟩⟩
  | negSucc m =>
    obtain ⟨hne, hall, hn⟩ := toString_nat_digits (m + 1)
    refine ⟨(toString (m + 1)).toList, hne, hall, Or.inr ⟨?_, ?_⟩⟩
    · show ("-" ++ toString (m + 1)).toList = _
      simp [String.toList]
    · rw [hn]; rfl

/-! ## Lemmas: selection of records -/

theorem filterNotId_records {n : JSNum} {items : List JSON}
    (hrec : ∀ item ∈ items, ∃ fs, item = .obj fs) :
    filterNotId n items = .ok (items.filter (fun item => !idIs n item)) := by
  induction items with
  | nil => rfl
  | cons item rest ih =>
    obtain ⟨fs, rfl⟩ := hrec _ (List.mem_cons_self _ _)
    have hr := ih (fun x hx => hrec x (List.mem_cons_of_mem _ hx))
    by_cases hs : strictEqNumber (getOwn "id" fs) n = true
    · simp [filterNotId, getId, hr, bind, Except.bind, pure, Except.pure, hs, idIs,
        List.filter_cons]
    · have hs' : strictEqNumber (getOwn "id" fs) n = false := by simpa using hs
      simp [filterNotId, getId, hr, bind, Except.bind, pure, Except.pure, hs', idIs,
        List.filter_cons]

theorem eq_of_both_eq {a b : Int} {n : JSNum}
    (ha : JSNum.eq (.fin a 0) n = true) (hb : JSNum.eq (.fin b 0) n = true) : a = b := by
  cases n with
  | nan => simp [JSNum.eq] at ha
  | inf neg => simp [JSNum.eq] at ha
  | fin m e =>
    simp only [JSNum.eq, pow_zero, mul_one, decide_eq_true_eq] at ha hb
    have hpos : (2 : Int) ^ e ≠ 0 := pow_ne_zero _ (by decide)
    exact mul_right_cancel₀ hpos (ha.trans hb.symm)

theorem idIs_of_intId {item : JSON} {i : Int} (h : HasIntId item i) (n : JSNum) :
    idIs n item = JSNum.eq (.fin i 0) n := by
  obtain ⟨fs, rfl, hid⟩ := h
  simp [idIs, hid, strictEqNumber]

/-- With unique integer ids at most one record has a given id. -/
theorem length_filter_unique {n : JSNum} {items : List JSON} {ids : List Int}
    (hids : List.Forall₂ HasIntId items ids) (hnd : ids.Nodup) :
    items.length ≤ (items.filter (fun item => !idIs n item)).length + 1 := by
  induction hids with
  | nil => simp
  | @cons item i rest restIds hx hrest ih =>
    obtain ⟨hnot, hnd'⟩ := List.nodup_cons.mp hnd
    by_cases hs : idIs n item = true
    · have hall : ∀ x ∈ rest, (!idIs n x) = true := by
        intro x hx'
        by_contra hcon
        have hxs : idIs n x = true := by simpa using hcon
        obtain ⟨j, hj, hxj⟩ : ∃ j, j ∈ restIds ∧ HasIntId x j := by
          clear ih hnd hnd' hnot
          induction hrest with
          | nil => exact absurd hx' (List.not_mem_nil _)
          | @cons y k ys ks hy _ ihy =>
            rcases List.mem_cons.mp hx' with rfl | hmem
            · exact ⟨k, by simp, hy⟩
            · obtain ⟨j, hj, hxj⟩ := ihy hmem
              exact ⟨j, List.mem_cons_of_mem _ hj, hxj⟩
        rw [idIs_of_intId hx] at hs
        rw [idIs_of_intId hxj] at hxs
        have : i = j := eq_of_both_eq hs hxs
        exact hnot (this ▸ hj)
      have hf : rest.filter (fun item => !idIs n item) = rest :=
        List.filter_eq_self.mpr hall
      simp [List.filter_cons, hs, hf]
    · have hs' : idIs n item = false := by simpa using hs
      have := ih hnd'
      simp [List.filter_cons, hs']
      omega

/-- When every comparison yields a truth value, `find` returns the first loose match. -/
theorem findLoose_eq_find (nts : Int → Nat → String) (id : String) {items : List JSON}
    (hdef : ∀ item ∈ items, ∃ fs b, item = .obj fs ∧
      looseEqString nts (getOwn "id" fs) id = .ok b) :
    findLoose nts id items = .ok (items.find? (looseMatch nts id)) := by
  induction items with
  | nil => rfl
  | cons item rest ih =>
    obtain ⟨fs, b, rfl, hb⟩ := hdef _ (List.mem_cons_self _ _)
    have hr := ih (fun x hx => hdef x (List.mem_cons_of_mem _ hx))
    cases b with
    | true =>
      simp [findLoose, getId, hb, bind, Except.bind, pure, Except.pure, List.find?_cons,
        looseMatch]
    | false =>
      simp [findLoose, getId, hb, hr, bind, Except.bind, List.find?_cons, looseMatch]

theorem find?_first {α : Type} (p : α → Bool) {xs : List α} {index : Nat} {x : α}
    (hx : xs[index]? = some x) (hp : p x = true)
    (hfirst : ∀ j, j < index → ∀ y, xs[j]? = some y → p y = false) :
    xs.find? p = some x := by
  induction xs generalizing index with
  | nil => simp at hx
  | cons y ys ih =>
    cases index with
    | zero =>
      have : y = x := by simpa using hx
      subst this
      simp [List.find?_cons, hp]
    | succ i =>
      have hy : p y = false := hfirst 0 (by omega) y (by simp)
      rw [List.find?_cons, hy]
      exact ih (by simpa using hx) (fun j hj z hz => hfirst (j + 1) (by omega) z (by simpa using hz))

theorem intIds_filter_ne {n : Int} {items : List JSON} {ids : List Int}
    (hids : List.Forall₂ HasIntId items ids) :
    List.Forall₂ HasIntId (items.filter (fun item => !idIs (.fin n 0) item))
      (ids.filter (fun i => decide (i ≠ n))) := by
  induction hids with
  | nil => exact .nil
  | @cons item i rest restIds hx _ ih =>
    have hid : idIs (.fin n 0) item = decide (i = n) := by
      rw [idIs_of_intId hx]
      simp [JSNum.eq]
    by_cases h : i = n
    · simp only [List.filter_cons, hid, h, decide_True, Bool.not_true, ne_eq,
        not_true_eq_false, decide_False]
      simpa using ih
    · simp only [List.filter_cons, hid, h, decide_False, Bool.not_false, ne_eq,
        not_false_eq_true, decide_True, if_true]
      exact .cons hx (by simpa using ih)

theorem records_of_intIds {items : List JSON} {ids : List Int}
    (hids : List.Forall₂ HasIntId items ids) : ∀ item ∈ items, ∃ fs, item = .obj fs := by
  induction hids with
  | nil => intro item hi; exact absurd hi (List.not_mem_nil _)
  | cons hx _ ih =>
    intro item hi
    rcases List.mem_cons.mp hi with rfl | hi
    · obtain ⟨fs, hfs, -⟩ := hx
      exact ⟨fs, hfs⟩
    · exact ih item hi

/-- Get and Update on a collection with integer ids, for a parameter that both read as the
integer `n`: both miss, or both select the first record whose id is `n`. -/
theorem get_update_same_record (nts : Int → Nat → String) (s : String) (n : Int)
    {items : List JSON} {ids : List Int}
    (hids : List.Forall₂ HasIntId items ids)
    (hnum : stringToNumber s = .fin n 0) :
    ((∀ i ∈ ids, i ≠ n) ∧ findLoose nts s items = .ok none ∧
      findIndexStrict (.fin n 0) items = .ok none) ∨
    ∃ (index : Nat) (old : Fields),
      items[index]? = some (.obj old) ∧ HasIntId (.obj old) n ∧
      (∀ j : Nat, j < index → ∀ i, ids[j]? = some i → i ≠ n) ∧
      findLoose nts s items = .ok (some (.obj old)) ∧
      findIndexStrict (.fin n 0) items = .ok (some index) := by
  induction hids with
  | nil => exact Or.inl ⟨by simp, rfl, rfl⟩
  | @cons item i rest restIds hx _ ih =>
    obtain ⟨fs, rfl, hid⟩ := hx
    by_cases h : i = n
    · subst h
      refine Or.inr ⟨0, fs, by simp, ⟨fs, rfl, hid⟩, ?_, ?_, ?_⟩
      · intro j hj; omega
      · simp [findLoose, getId, hid, looseEqString, hnum, JSNum.eq, bind, Except.bind, pure,
          Except.pure]
      · simp [findIndexStrict, getId, hid, strictEqNumber, JSNum.eq, bind, Except.bind, pure,
          Except.pure]
    · have hloose : looseEqString nts (some (JSON.int i)) s = .ok false := by
        simp [looseEqString, hnum, JSNum.eq, h]
      have hstrict : strictEqNumber (some (JSON.int i)) (.fin n 0) = false := by
        simp [strictEqNumber, JSNum.eq, h]
      rcases ih with ⟨hall, hl, hf⟩ | ⟨index, old, hold, hint, hfirst, hl, hf⟩
      · refine Or.inl ⟨?_, ?_, ?_⟩
        · intro k hk
          rcases List.mem_cons.mp hk with rfl | hk
          · exact h
          · exact hall k hk
        · simp [findLoose, getId, hid, hloose, hl, bind, Except.bind]
        · simp [findIndexStrict, getId, hid, hstrict, hf, bind, Except.bind, pure, Except.pure]
      · refine Or.inr ⟨index + 1, old, by simpa using hold, hint, ?_, ?_, ?_⟩
        · intro j hj k hk
          cases j with
          | zero =>
            have : i = k := by simpa using hk
            rw [← this]; exact h
          | succ j => exact hfirst j (by omega) k (by simpa using hk)
        · simp [findLoose, getId, hid, hloose, hl, bind, Except.bind]
        · simp [findIndexStrict, getId, hid, hstrict, hf, bind, Except.bind, pure, Except.pure]

/-- Two Create requests handled one after the other, the second on the document saved by the
first, receive the ids `1` and `2` on a collection that was empty. -/
theorem two_creates_in_sequence (nts : Int → Nat → String) (db : Fields) (resource : String)
    (first second : Fields) (hres : getOwn resource db = some (.arr [])) :
    ∃ (a b : Fields),
      (postResource nts db resource first).response = .json 200 (some (.obj a)) ∧
      getOwn "id" a = some (.int 1) ∧
      (postResource nts ((postResource nts db resource first).persisted db) resource
        second).response = .json 200 (some (.obj b)) ∧
      getOwn "id" b = some (.int 2) := by
  have hkey : ∀ p : Fields, ("id" : String) ≠ "__proto__" ∨ getOwn "id" p ≠ none :=
    fun _ => Or.inl (by decide)
  have h1 := postResource_collection nts first hres (show nextId nts [] = .ok (.fin 1 0) from rfl)
  have ha : getOwn "id" (assignProp first "id" (JSNum.fin 1 0).toJSON) = some (.int 1) := by
    rw [getOwn_assignProp _ _ _ _ (hkey first), if_pos rfl]; rfl
  have hres1 := getOwn_replaceProp_self resource
    (.arr ([] ++ [.obj (assignProp first "id" (JSNum.fin 1 0).toJSON)])) (.arr []) db hres
  have hnext : nextId nts ([] ++ [.obj (assignProp first "id" (JSNum.fin 1 0).toJSON)])
      = .ok (.fin 2 0) :=
    (nextId_of_intIds nts (.cons ⟨_, rfl, ha⟩ .nil) (by simp)).2 1 (by simp) (by simp)
  have h2 := postResource_collection nts second hres1 hnext
  refine ⟨assignProp first "id" (JSNum.fin 1 0).toJSON,
    assignProp second "id" (JSNum.fin 2 0).toJSON, by rw [h1], ha, ?_, ?_⟩
  · rw [h1]
    simp only [Outcome.persisted, Option.getD_some]
    rw [h2]
  · rw [getOwn_assignProp _ _ _ _ (hkey second), if_pos rfl]; rfl

/-- Two Create requests that both start from the same loaded document with an empty
collection both receive the id `1`, and each saves a collection that holds its own record
only. -/
theorem creates_from_same_snapshot (nts : Int → Nat → String) (db : Fields)
    (resource : String) (first second : Fields)
    (hres : getOwn resource db = some (.arr [])) :
    postResource nts db resource first =
      ⟨.json 200 (some (.obj (assignProp first "id" (.int 1)))),
        some (replaceProp resource (.arr [.obj (assignProp first "id" (.int 1))]) db)⟩ ∧
    postResource nts db resource second =
      ⟨.json 200 (some (.obj (assignProp second "id" (.int 1)))),
        some (replaceProp resource (.arr [.obj (assignProp second "id" (.int 1))]) db)⟩ :=
  ⟨postResource_collection nts first hres rfl, postResource_collection nts second hres rfl⟩

/-! ## Claims about singletons, lookup and deletion -/

/-- C11 (amended): when `resource` names a singleton (an object), Create answers with the
payload as sent, no id being assigned, and saves the document in which the singleton is the
merge of the old singleton and the payload: fields of the payload have the value of the
payload, the other fields are kept, every other resource is as loaded. Nothing changes when
the payload is empty. The payload is an object, so its field names are distinct. -/
theorem create_on_singleton (nts : Int → Nat → String) (db : Fields) (resource : String)
    (old payload : Fields)
    (hres : getOwn resource db = some (.obj old))
    (hpayload : (payload.map Prod.fst).Nodup) :
    ∃ db1 : Fields,
      postResource nts db resource payload = ⟨.json 200 (some (.obj payload)), some db1⟩ ∧
      getOwn resource db1 = some (.obj (spreadInto old payload)) ∧
      (∀ k v, getOwn k payload = some v → getOwn k (spreadInto old payload) = some v) ∧
      (∀ k, getOwn k payload = none → getOwn k (spreadInto old payload) = getOwn k old) ∧
      (∀ k, k ≠ resource → getOwn k db1 = getOwn k db) ∧
      (payload = [] → db1 = db) := by
  refine ⟨replaceProp resource (.obj (spreadInto old payload)) db, ?_, ?_, ?_, ?_, ?_, ?_⟩
  · simp only [postResource, getProp_of_own hres, assignProp_of_own _ hres, ownEntries]
  · exact getOwn_replaceProp_self _ _ _ _ hres
  · intro k v hk
    exact getOwn_spreadInto_of_some k v payload old hpayload hk
  · intro k hk
    exact getOwn_spreadInto_of_none k payload old hk
  · intro k hk
    rw [getOwn_replaceProp _ _ _ _ (by simp [hres]), if_neg hk]
  · intro he
    subst he
    exact replaceProp_self _ _ _ hres

/-- Instance of C11: a Create on `activeOrders` of the sample document. -/
theorem create_on_singleton_witness :
    ∃ db1 : Fields,
      postResource integerText twoUsers "activeOrders" [("mesa", .int 4)]
        = ⟨.json 200 (some (.obj [("mesa", .int 4)])), some db1⟩ ∧
      getOwn "activeOrders" db1 = some (.obj (spreadInto [] [("mesa", .int 4)])) ∧
      (∀ k v, getOwn k [("mesa", JSON.int 4)] = some v →
        getOwn k (spreadInto [] [("mesa", .int 4)]) = some v) ∧
      (∀ k, getOwn k [("mesa", JSON.int 4)] = none →
        getOwn k (spreadInto [] [("mesa", .int 4)]) = getOwn k []) ∧
      (∀ k, k ≠ "activeOrders" → getOwn k db1 = getOwn k twoUsers) ∧
      ([("mesa", JSON.int 4)] = [] → db1 = twoUsers) :=
  create_on_singleton integerText twoUsers "activeOrders" [] [("mesa", .int 4)] rfl
    (by decide)

/-- C11 as stated fails on the default document: Create on `activeOrders` with the payload
`{ mesa: 4 }` saves a document whose `activeOrders` is `{ mesa: 4 }` instead of `{}`. -/
theorem create_changes_singleton :
    getOwn "activeOrders" defaultDocument = some (.obj []) ∧
    postResource integerText defaultDocument "activeOrders" [("mesa", .int 4)]
      = ⟨.json 200 (some (.obj [("mesa", .int 4)])),
          some [("users", .arr []), ("menu", .arr []), ("orders", .arr []),
            ("activeOrders", .obj [("mesa", .int 4)])]⟩ ∧
    getOwn "activeOrders"
        ((postResource integerText defaultDocument "activeOrders"
          [("mesa", .int 4)]).persisted defaultDocument)
      = some (.obj [("mesa", .int 4)]) :=
  ⟨rfl, rfl, rfl⟩

/-- C12 (amended): on a collection of records whose ids can all be compared with the
parameter (`item.id == id` yields a truth value for each record), Get answers with the first
record in collection order whose id loosely equals the parameter, and answers 404
`Item no encontrado` exactly when no record does; on a resource that is not an array Get
answers with its value for every parameter; and Get never saves. -/
theorem get_finds_first_loose_match (nts : Int → Nat → String) (db : Fields)
    (resource id : String) :
    (∀ items, getOwn resource db = some (.arr items) →
      (∀ item ∈ items, ∃ fs b, item = .obj fs ∧
        looseEqString nts (getOwn "id" fs) id = .ok b) →
      (∀ index item, items[index]? = some item → looseMatch nts id item = true →
        (∀ j : Nat, j < index → ∀ other, items[j]? = some other →
          looseMatch nts id other = false) →
        getItem nts db resource id = ⟨.json 200 (some item), none⟩) ∧
      (getItem nts db resource id
          = ⟨.json 404 (some (.obj [("error", .str "Item no encontrado")])), none⟩
        ↔ ∀ item ∈ items, looseMatch nts id item = false)) ∧
    (∀ v, getOwn resource db = some v → (∀ items, v ≠ .arr items) →
      getItem nts db resource id = ⟨.json 200 (some v), none⟩) ∧
    (getItem nts db resource id).saved = none := by
  refine ⟨?_, ?_, ?_⟩
  · intro items hres hdef
    have hget : getItem nts db resource id
        = (match items.find? (looseMatch nts id) with
          | some item => ⟨.json 200 (some item), none⟩
          | none => notFound "Item no encontrado") := by
      simp only [getItem, getProp_of_own hres, findLoose_eq_find nts id hdef]
      cases items.find? (looseMatch nts id) <;> rfl
    constructor
    · intro index item hitem hmatch hfirst
      rw [hget, find?_first (looseMatch nts id) hitem hmatch hfirst]
    · rw [hget]
      constructor
      · intro h
        cases hf : items.find? (looseMatch nts id) with
        | some item =>
          rw [hf] at h
          simp [notFound] at h
        | none =>
          intro item hi
          have := List.find?_eq_none.mp hf item hi
          simpa using this
      · intro h
        have hf : items.find? (looseMatch nts id) = none := by
          rw [List.find?_eq_none]
          intro item hi
          simp [h item hi]
        rw [hf]
        rfl
  · intro v hres hv
    cases v with
    | arr items => exact absurd rfl (hv items)
    | null | bool _ | num _ _ | str _ | obj _ =>
      simp only [getItem, getProp_of_own hres, Value.stringify]
  · unfold getItem
    split
    · rfl
    · split <;> rfl
    · rfl

/-- Instance of C12: fetching the second of the two sample users. -/
theorem get_finds_first_loose_match_witness :
    getItem integerText twoUsers "users" "2" = ⟨.json 200 (some (.obj [("id", .int 2)])), none⟩ :=
  ((get_finds_first_loose_match integerText twoUsers "users" "2").1
    [.obj [("id", .int 1)], .obj [("id", .int 2)]] rfl
    (by
      intro item hi
      simp only [List.mem_cons, List.mem_singleton, List.not_mem_nil, or_false] at hi
      rcases hi with rfl | rfl
      · exact ⟨_, false, rfl, rfl⟩
      · exact ⟨_, true, rfl, rfl⟩)).1 1 (.obj [("id", .int 2)]) rfl rfl
    (by
      intro j hj other ho
      have hj0 : j = 0 := by omega
      subst hj0
      have : other = .obj [("id", .int 1)] := by simpa using ho.symm
      subst this
      rfl)

/-- C12 as stated fails when a stored id is an object with an own property `toString`: the
comparison `item.id == id` raises, so Get answers neither with a record nor with 404. -/
theorem get_raises_on_unconvertible_id :
    getItem integerText [("users", .arr [.obj [("id", .obj [("toString", .int 1)])]])]
        "users" "1"
      = ⟨.uncaught, none⟩ := rfl

/-- C13: when `resource` names a singleton (an object), Update answers with and saves the
merge of the old singleton and the payload (fields of the payload have the value of the
payload, the other fields are kept, every other resource is as loaded), and the outcome is
the same for every id parameter. The payload is an object, so its field names are
distinct. -/
theorem update_singleton (db : Fields) (resource idParam : String) (old payload : Fields)
    (hres : getOwn resource db = some (.obj old))
    (hpayload : (payload.map Prod.fst).Nodup) :
    ∃ (merged db1 : Fields),
      putItem db resource idParam payload = ⟨.json 200 (some (.obj merged)), some db1⟩ ∧
      getOwn resource db1 = some (.obj merged) ∧
      (∀ k v, getOwn k payload = some v → getOwn k merged = some v) ∧
      (∀ k, getOwn k payload = none → getOwn k merged = getOwn k old) ∧
      (∀ k, k ≠ resource → getOwn k db1 = getOwn k db) ∧
      (∀ other : String,
        putItem db resource other payload = putItem db resource idParam payload) := by
  have hput : ∀ id : String, putItem db resource id payload
      = ⟨.json 200 (some (.obj (spreadInto old payload))),
          some (replaceProp resource (.obj (spreadInto old payload)) db)⟩ := by
    intro id
    simp only [putItem, getProp_of_own hres, assignProp_of_own _ hres, ownEntries]
  refine ⟨spreadInto old payload, _, hput idParam, ?_, ?_, ?_, ?_, ?_⟩
  · exact getOwn_replaceProp_self _ _ _ _ hres
  · intro k v hk
    exact getOwn_spreadInto_of_some k v payload old hpayload hk
  · intro k hk
    exact getOwn_spreadInto_of_none k payload old hk
  · intro k hk
    rw [getOwn_replaceProp _ _ _ _ (by simp [hres]), if_neg hk]
  · intro other
    rw [hput other, hput idParam]

/-- Instance of C13: changing the total of the active order. -/
theorem update_singleton_witness :
    ∃ (merged db1 : Fields),
      putItem [("activeOrders", .obj [("mesa", .int 1), ("total", .int 20)])]
          "activeOrders" "7" [("total", .int 35)]
        = ⟨.json 200 (some (.obj merged)), some db1⟩ ∧
      getOwn "activeOrders" db1 = some (.obj merged) ∧
      (∀ k v, getOwn k [("total", JSON.int 35)] = some v → getOwn k merged = some v) ∧
      (∀ k, getOwn k [("total", JSON.int 35)] = none →
        getOwn k merged = getOwn k [("mesa", JSON.int 1), ("total", JSON.int 20)]) ∧
      (∀ k, k ≠ "activeOrders" → getOwn k db1
        = getOwn k [("activeOrders", .obj [("mesa", .int 1), ("total", .int 20)])]) ∧
      (∀ other : String,
        putItem [("activeOrders", .obj [("mesa", .int 1), ("total", .int 20)])]
            "activeOrders" other [("total", .int 35)]
          = putItem [("activeOrders", .obj [("mesa", .int 1), ("total", .int 20)])]
            "activeOrders" "7" [("total", .int 35)]) :=
  update_singleton [("activeOrders", .obj [("mesa", .int 1), ("total", .int 20)])]
    "activeOrders" "7" [("mesa", .int 1), ("total", .int 20)] [("total", .int 35)] rfl
    (by decide)

/-- C14: on a collection of records Delete answers with the acknowledgement and saves the
collection of exactly the records whose id is not strictly equal to `parseInt(id)`, in their
order; with unique integer ids at most one record is removed. On a resource that is not an
array Delete answers 404 `Recurso no encontrado o no es un array` and saves nothing. -/
theorem delete_filters_collection (db : Fields) (resource idParam : String) :
    (∀ items, getOwn resource db = some (.arr items) →
      (∀ item ∈ items, ∃ fs, item = .obj fs) →
      ∃ db1 : Fields,
        deleteItem db resource idParam =
          ⟨.json 200
            (some (.obj [("success", .bool true), ("message", .str "Item eliminado")])),
            some db1⟩ ∧
        getOwn resource db1
          = some (.arr (items.filter (fun item => !idIs (parseInt idParam) item))) ∧
        (UniqueIntIds items → items.length
          ≤ (items.filter (fun item => !idIs (parseInt idParam) item)).length + 1)) ∧
    (∀ v, getOwn resource db = some v → (∀ items, v ≠ .arr items) →
      deleteItem db resource idParam =
        ⟨.json 404 (some (.obj [("error", .str "Recurso no encontrado o no es un array")])),
          none⟩ ∧
      (deleteItem db resource idParam).persisted db = db) := by
  constructor
  · intro items hres hrec
    refine ⟨_, deleteItem_collection hres (filterNotId_records hrec), ?_, ?_⟩
    · exact getOwn_replaceProp_self _ _ _ _ hres
    · rintro ⟨ids, hids, hnd⟩
      exact length_filter_unique hids hnd
  · intro v hres hv
    have h : deleteItem db resource idParam
        = notFound "Recurso no encontrado o no es un array" := by
      cases v with
      | arr items => exact absurd rfl (hv items)
      | null | bool _ | num _ _ | str _ | obj _ =>
        simp only [deleteItem, getProp_of_own hres]
    rw [h]
    exact ⟨rfl, rfl⟩

/-- Instance of C14: deleting the first of the two sample users. -/
theorem delete_filters_collection_witness :
    ∃ db1 : Fields,
      deleteItem twoUsers "users" "1" =
        ⟨.json 200
          (some (.obj [("success", .bool true), ("message", .str "Item eliminado")])),
          some db1⟩ ∧
      getOwn "users" db1
        = some (.arr (([JSON.obj [("id", .int 1)], JSON.obj [("id", .int 2)]]).filter
            (fun item => !idIs (parseInt "1") item))) ∧
      (UniqueIntIds [JSON.obj [("id", .int 1)], JSON.obj [("id", .int 2)]] →
        ([JSON.obj [("id", .int 1)], JSON.obj [("id", .int 2)]]).length
          ≤ (([JSON.obj [("id", .int 1)], JSON.obj [("id", .int 2)]]).filter
              (fun item => !idIs (parseInt "1") item)).length + 1) :=
  (delete_filters_collection twoUsers "users" "1").1
    [.obj [("id", .int 1)], .obj [("id", .int 2)]] rfl
    (by
      intro item hi
      simp only [List.mem_cons, List.mem_singleton, List.not_mem_nil, or_false] at hi
      rcases hi with rfl | rfl <;> exact ⟨_, rfl⟩)

/-- C15: when no record of the collection has the parsed id, Update answers 404
`Item no encontrado` and saves nothing, so the persisted document is the loaded one. -/
theorem update_unknown_id (db : Fields) (resource idParam : String) (items : List JSON)
    (payload : Fields)
    (hres : getOwn resource db = some (.arr items))
    (hnone : ∀ item ∈ items, ∃ fs, item = .obj fs ∧
      strictEqNumber (getOwn "id" fs) (parseInt idParam) = false) :
    putItem db resource idParam payload
      = ⟨.json 404 (some (.obj [("error", .str "Item no encontrado")])), none⟩ ∧
    (putItem db resource idParam payload).persisted db = db := by
  have h : putItem db resource idParam payload = notFound "Item no encontrado" := by
    simp only [putItem, getProp_of_own hres, findIndexStrict_of_no_match hnone]
  rw [h]
  exact ⟨rfl, rfl⟩

/-- Instance of C15: updating the absent id `3` of the sample users. -/
theorem update_unknown_id_witness :
    putItem twoUsers "users" "3" [("name", .str "Ana")]
      = ⟨.json 404 (some (.obj [("error", .str "Item no encontrado")])), none⟩ ∧
    (putItem twoUsers "users" "3" [("name", .str "Ana")]).persisted twoUsers = twoUsers :=
  update_unknown_id twoUsers "users" "3" [.obj [("id", .int 1)], .obj [("id", .int 2)]]
    [("name", .str "Ana")] rfl
    (by
      intro item hi
      simp only [List.mem_cons, List.mem_singleton, List.not_mem_nil, or_false] at hi
      rcases hi with rfl | rfl <;> exact ⟨_, rfl, rfl⟩)

/-! ## Claims about the document store -/

/-- C16: `readDB` never raises. It returns the parsed content when the path is set, the file
can be read and its text parses, and the default document in every other case. -/
theorem readDB_never_raises {ε : Type} (dbFile : Option String)
    (readFileSync : String → Except ε String) (parse : String → Except ε JSON) :
    ∃ v : JSON, readDB dbFile readFileSync parse = .ok v ∧
      ((∃ path text, dbFile = some path ∧ path ≠ "" ∧ readFileSync path = .ok text ∧
          parse text = .ok v) ∨
       ((¬ ∃ path text w, dbFile = some path ∧ path ≠ "" ∧ readFileSync path = .ok text ∧
          parse text = .ok w) ∧ v = .obj defaultDocument)) := by
  cases dbFile with
  | none => exact ⟨_, rfl, Or.inr ⟨by simp, rfl⟩⟩
  | some path =>
    by_cases hp : path = ""
    · refine ⟨.obj defaultDocument, by simp [readDB, hp], Or.inr ⟨?_, rfl⟩⟩
      rintro ⟨p, text, w, hsome, hne, -, -⟩
      cases hsome
      exact hne hp
    · cases hr : readFileSync path with
      | error e =>
        refine ⟨.obj defaultDocument, by simp [readDB, hp, hr, bind, Except.bind],
          Or.inr ⟨?_, rfl⟩⟩
        rintro ⟨p, text, w, hsome, -, hread, -⟩
        cases hsome
        rw [hr] at hread
        cases hread
      | ok text =>
        cases hj : parse text with
        | error e =>
          refine ⟨.obj defaultDocument, by simp [readDB, hp, hr, hj, bind, Except.bind],
            Or.inr ⟨?_, rfl⟩⟩
          rintro ⟨p, text', w, hsome, -, hread, hparse⟩
          cases hsome
          rw [hr] at hread
          cases hread
          rw [hj] at hparse
          cases hparse
        | ok v =>
          exact ⟨v, by simp [readDB, hp, hr, hj, bind, Except.bind],
            Or.inl ⟨path, text, rfl, hp, hr, hj⟩⟩

/-! ## Claims about ids across requests -/

/-- C18 (amended): on a collection with integer ids below `2 ^ 53` in magnitude, after the
Delete of an id `n` that is not the greatest one (some record has an id `m > n`), the
following Create on the same resource assigns an id greater than `n`. -/
theorem deleted_id_not_reused (nts : Int → Nat → String) (db : Fields)
    (resource idParam : String) (items : List JSON) (ids : List Int) (n m : Int)
    (payload : Fields)
    (hres : getOwn resource db = some (.arr items))
    (hids : List.Forall₂ HasIntId items ids)
    (hsafe : ∀ i ∈ ids, -9007199254740992 < i ∧ i < 9007199254740992)
    (hn : n ∈ ids) (hm : m ∈ ids) (hlt : n < m)
    (htext : DecimalTextOf idParam n) :
    ∃ (created : Fields) (k : Int),
      (postResource nts ((deleteItem db resource idParam).persisted db) resource
        payload).response = .json 200 (some (.obj created)) ∧
      getOwn "id" created = some (.int k) ∧ n < k := by
  obtain ⟨hn1, hn2⟩ := hsafe n hn
  have hparse : parseInt idParam = .fin n 0 :=
    (parse_decimalText htext ⟨by omega, by omega⟩).1
  have hdel := deleteItem_collection hres
    (@filterNotId_records (parseInt idParam) items (records_of_intIds hids))
  rw [hparse] at hdel
  rw [hdel]
  simp only [Outcome.persisted, Option.getD_some]
  have hres1 := getOwn_replaceProp_self resource
    (.arr (items.filter (fun item => !idIs (.fin n 0) item))) (.arr items) db hres
  have hkept := @intIds_filter_ne n items ids hids
  have hmem : m ∈ ids.filter (fun i => decide (i ≠ n)) := by
    simp [List.mem_filter, hm]; omega
  have hsafe' : ∀ i ∈ ids.filter (fun i => decide (i ≠ n)),
      -9007199254740992 < i ∧ i < 9007199254740992 :=
    fun i hi => hsafe i (List.mem_filter.mp hi).1
  obtain ⟨m0, hm0, hmax0, -⟩ := mathMax_ints _ (List.ne_nil_of_mem hmem)
  have hnext := (nextId_of_intIds nts hkept hsafe').2 m0 hm0 hmax0
  rw [postResource_collection nts payload hres1 hnext]
  refine ⟨_, m0 + 1, rfl, ?_, ?_⟩
  · rw [getOwn_assignProp _ _ _ _ (Or.inl (by decide)), if_pos rfl]; rfl
  · have := hmax0 m hmem
    omega

/-- Instance of C18: deleting the id `1` of the sample users, then creating. -/
theorem deleted_id_not_reused_witness :
    ∃ (created : Fields) (k : Int),
      (postResource integerText ((deleteItem twoUsers "users" "1").persisted twoUsers) "users"
        [("name", .str "Ana")]).response = .json 200 (some (.obj created)) ∧
      getOwn "id" created = some (.int k) ∧ 1 < k :=
  deleted_id_not_reused integerText twoUsers "users" "1"
    [.obj [("id", .int 1)], .obj [("id", .int 2)]] [1, 2] 1 2 [("name", .str "Ana")] rfl
    (.cons ⟨_, rfl, rfl⟩ (.cons ⟨_, rfl, rfl⟩ .nil)) (by decide) (by decide) (by decide)
    (by decide) ⟨['1'], by decide, by decide, Or.inl ⟨rfl, rfl⟩⟩

/-- C18 as stated fails for the greatest id: after the Delete of the id `2` of the sample
users the greatest id left is `1`, and the next Create assigns `2` again. -/
theorem greatest_id_is_reused :
    UniqueIntIds [.obj [("id", .int 1)], .obj [("id", .int 2)]] ∧
    (deleteItem twoUsers "users" "2").persisted twoUsers
      = [("users", .arr [.obj [("id", .int 1)]]), ("activeOrders", .obj [])] ∧
    (postResource integerText ((deleteItem twoUsers "users" "2").persisted twoUsers) "users"
        [("name", .str "Ana")]).response
      = .json 200 (some (.obj [("name", .str "Ana"), ("id", .int 2)])) :=
  ⟨⟨[1, 2], .cons ⟨_, rfl, rfl⟩ (.cons ⟨_, rfl, rfl⟩ .nil), by decide⟩, rfl, rfl⟩

/-- C19: every resource other than the target of a Create, an Update or a Delete has the
same value in the persisted document as in the loaded one; and when an Update on a collection
saves, the saved collection has the length of the old one and differs from it at most at
the index of the first record that has the parsed id. -/
theorem writes_touch_only_target (nts : Int → Nat → String) (db : Fields)
    (resource id : String) (payload : Fields) :
    (∀ k, k ≠ resource →
      getOwn k ((postResource nts db resource payload).persisted db) = getOwn k db ∧
      getOwn k ((putItem db resource id payload).persisted db) = getOwn k db ∧
      getOwn k ((deleteItem db resource id).persisted db) = getOwn k db) ∧
    (∀ items db1, getOwn resource db = some (.arr items) →
      (putItem db resource id payload).saved = some db1 →
      ∃ (items1 : List JSON) (index : Nat) (old : Fields),
        getOwn resource db1 = some (.arr items1) ∧
        items1.length = items.length ∧
        items[index]? = some (.obj old) ∧
        strictEqNumber (getOwn "id" old) (parseInt id) = true ∧
        (∀ j, j < index → ∀ fs, items[j]? = some (.obj fs) →
          strictEqNumber (getOwn "id" fs) (parseInt id) = false) ∧
        (∀ j, j ≠ index → items1[j]? = items[j]?)) := by
  constructor
  · intro k hk
    exact ⟨getOwn_of_saved (postResource_saved nts db resource payload) hk,
      getOwn_of_saved (putItem_saved db resource id payload) hk,
      getOwn_of_saved (deleteItem_saved db resource id) hk⟩
  · intro items db1 hres hsaved
    cases hfind : findIndexStrict (parseInt id) items with
    | error e => simp [putItem, getProp_of_own hres, hfind, raised] at hsaved
    | ok r =>
      cases r with
      | none => simp [putItem, getProp_of_own hres, hfind, notFound] at hsaved
      | some index =>
        obtain ⟨old, hold, hid⟩ := findIndexStrict_some hfind
        rw [putItem_collection payload hres hfind hold] at hsaved
        have hdb1 : db1 = replaceProp resource
            (.arr (items.set index (.obj (spreadInto old payload)))) db := by
          simpa using hsaved.symm
        refine ⟨items.set index (.obj (spreadInto old payload)), index, old, ?_, ?_, hold, hid,
          findIndexStrict_first hfind, ?_⟩
        · rw [hdb1]; exact getOwn_replaceProp_self _ _ _ _ hres
        · simp
        · intro j hj
          rw [List.getElem?_set_ne (Ne.symm hj)]

/-- Instance of C19: an Update of a user leaves `activeOrders` alone. -/
theorem writes_touch_only_target_witness :
    getOwn "activeOrders"
        ((putItem twoUsers "users" "1" [("name", .str "Ana")]).persisted twoUsers)
      = getOwn "activeOrders" twoUsers :=
  ((writes_touch_only_target integerText twoUsers "users" "1" [("name", .str "Ana")]).1
    "activeOrders" (by decide)).2.1

/-- C20 (amended): on a collection whose records carry integer ids, for a parameter that
is a decimal text of an integer `n` of magnitude at most `2 ^ 53` (the canonical text of `n`
is one, see `decimalTextOf_toString`), either no record has the id `n` and Get and Update
both answer 404 `Item no encontrado`, or both select the first record whose id is `n`. -/
theorem get_and_update_agree (nts : Int → Nat → String) (db : Fields)
    (resource idParam : String) (items : List JSON) (ids : List Int) (n : Int)
    (payload : Fields)
    (hres : getOwn resource db = some (.arr items))
    (hids : List.Forall₂ HasIntId items ids)
    (htext : DecimalTextOf idParam n)
    (hn : -9007199254740992 ≤ n ∧ n ≤ 9007199254740992) :
    ((∀ i ∈ ids, i ≠ n) ∧
      getItem nts db resource idParam = notFound "Item no encontrado" ∧
      putItem db resource idParam payload = notFound "Item no encontrado") ∨
    ∃ (index : Nat) (old : Fields),
      items[index]? = some (.obj old) ∧ HasIntId (.obj old) n ∧
      (∀ j : Nat, j < index → ∀ i, ids[j]? = some i → i ≠ n) ∧
      getItem nts db resource idParam = ⟨.json 200 (some (.obj old)), none⟩ ∧
      putItem db resource idParam payload =
        ⟨.json 200 (some (.obj (spreadInto old payload))),
          some (replaceProp resource
            (.arr (items.set index (.obj (spreadInto old payload)))) db)⟩ := by
  obtain ⟨hparse, hnum⟩ := parse_decimalText htext hn
  rcases get_update_same_record nts idParam n hids hnum with
    ⟨hall, hl, hf⟩ | ⟨index, old, hold, hint, hfirst, hl, hf⟩
  · refine Or.inl ⟨hall, ?_, ?_⟩
    · simp only [getItem, getProp_of_own hres, hl]
    · simp only [putItem, getProp_of_own hres, hparse, hf]
  · refine Or.inr ⟨index, old, hold, hint, hfirst, ?_, ?_⟩
    · simp only [getItem, getProp_of_own hres, hl]
    · rw [← hparse] at hf
      exact putItem_collection payload hres hf hold

/-- Instance of C20: the parameter `2` on the two sample users. -/
theorem get_and_update_agree_witness :
    ((∀ i ∈ ([1, 2] : List Int), i ≠ 2) ∧
      getItem integerText twoUsers "users" "2" = notFound "Item no encontrado" ∧
      putItem twoUsers "users" "2" [("name", .str "Ana")] = notFound "Item no encontrado") ∨
    ∃ (index : Nat) (old : Fields),
      ([JSON.obj [("id", .int 1)], JSON.obj [("id", .int 2)]])[index]? = some (.obj old) ∧
      HasIntId (.obj old) 2 ∧
      (∀ j : Nat, j < index → ∀ i, ([1, 2] : List Int)[j]? = some i → i ≠ 2) ∧
      getItem integerText twoUsers "users" "2" = ⟨.json 200 (some (.obj old)), none⟩ ∧
      putItem twoUsers "users" "2" [("name", .str "Ana")] =
        ⟨.json 200 (some (.obj (spreadInto old [("name", .str "Ana")]))),
          some (replaceProp "users"
            (.arr (([JSON.obj [("id", .int 1)], JSON.obj [("id", .int 2)]]).set index
              (.obj (spreadInto old [("name", .str "Ana")])))) twoUsers)⟩ :=
  get_and_update_agree integerText twoUsers "users" "2"
    [.obj [("id", .int 1)], .obj [("id", .int 2)]] [1, 2] 2 [("name", .str "Ana")] rfl
    (.cons ⟨_, rfl, rfl⟩ (.cons ⟨_, rfl, rfl⟩ .nil))
    ⟨['2'], by decide, by decide, Or.inl ⟨rfl, rfl⟩⟩ (by decide)

/-- C20 as stated fails for `n = 2 ^ 53 + 1`: its canonical text is read as the double
`2 ^ 53` by both handlers, which select the record with the id `2 ^ 53` although no record
has the id `n`. -/
theorem get_selects_rounded_id :
    toString (9007199254740993 : Int) = "9007199254740993" ∧
    HasIntId (.obj [("id", .int 9007199254740992)]) 9007199254740992 ∧
    getItem integerText [("users", .arr [.obj [("id", .int 9007199254740992)]])] "users"
        "9007199254740993"
      = ⟨.json 200 (some (.obj [("id", .int 9007199254740992)])), none⟩ ∧
    (putItem [("users", .arr [.obj [("id", .int 9007199254740992)]])] "users"
        "9007199254740993" []).response
      = .json 200 (some (.obj [("id", .int 9007199254740992)])) ∧
    ¬ HasIntId (.obj [("id", .int 9007199254740992)]) 9007199254740993 := by
  refine ⟨by decide, ⟨_, rfl, rfl⟩, rfl, rfl, ?_⟩
  intro h
  have := hasIntId_unique h ⟨_, rfl, rfl⟩
  omega

end Actividad4
